import Mathlib

/-!
# Batch inference driver (`src/cpp/main.cc`)

A shallow embedding of `main`: argument parsing, the Counting pass, the
Processing pass with its per-image pipeline, the final summary and teardown.

Conventions of the embedding.

* A C string is the list of its `char`s before the terminating NUL (`CStr`);
  `strlen` is `List.length`.
* Every call into a collaborator library or the operating system
  (`access`, `mkdir`, `init_yolo11_model`, `opendir`, `readdir`, `stat`,
  `read_image`, `inference_yolo11_model`, `fopen`, ...) takes its result from
  a `World` value, so a statement quantified over `World` covers every
  outcome of those calls.
* A run of `main` is its return value together with the ordered list of
  observable events (external calls and lines printed).
* `int` counters are natural numbers (they start at 0 and are incremented at
  most once per directory entry). A `float` or `double` value is the rational
  it denotes; the `double` arithmetic on the latencies (conversion, division,
  addition, each rounded once to the nearest binary64 value, ties to even) is
  `fl64`. The progress percentage, a `float` in the source, is carried as the
  rational `image_count / total_files * 100`.
* `stat`, `clock_gettime`, `memset`, `fflush` and `fclose` leave no event of
  their own; the value returned by `write_image` is not looked at by `main`.
* `free(src_image.virt_addr)` and, in the `RV1106_1103` build, `dma_buf_free`
  stand at the same program point: both are the event `release_image`.
* The label given to `draw_text` is recorded by the class name and the score
  it is formatted from.
* A `strcpy` that writes past the 1024 bytes of `txt_path` is recorded as the
  event `strcpy_overflow`.
-/

namespace Yolo11Batch

/-- A C string: the characters before the terminating NUL. -/
abbrev CStr := List Char

/-- Size of the path buffers, `#define MAX_PATH_LEN 1024` (also `char output_path[1024]`). -/
def MAX_PATH_LEN : Nat := 1024

/-- Result of `snprintf(buf, size, fmt, ...)` where `text` is the fully formatted text:
what is stored in `buf` (at most `size - 1` characters) and the returned length. -/
def snprintf (size : Nat) (text : CStr) : CStr × Nat :=
  (text.take (size - 1), text.length)

/-- Index of the last occurrence of `c` in `s`, as located by `strrchr(s, c)`. -/
def strrchr : CStr → Char → Option Nat
  | [], _ => none
  | x :: xs, c =>
    match strrchr xs c with
    | some i => some (i + 1)
    | none => if x = c then some 0 else none

/-- Bounding box, `image_rect_t`. -/
structure image_rect_t where
  left : Int
  top : Int
  right : Int
  bottom : Int
  deriving DecidableEq, Repr

/-- One finding, `object_detect_result`. -/
structure object_detect_result where
  box : image_rect_t
  prop : ℚ
  cls_id : Int
  deriving DecidableEq, Repr

/-- What `readdir` returns for one entry, with the outcome of `stat` on its joined path. -/
structure DirEnt where
  d_name : CStr
  stat_ret : Int
  is_reg : Bool
  deriving DecidableEq, Repr

/-- Outcomes of the external calls made while one entry is processed. -/
structure Outcome where
  read_ret : Int
  start_sec : Int
  start_nsec : Int
  end_sec : Int
  end_nsec : Int
  infer_ret : Int
  results : List object_detect_result
  fopen_ok : Bool
  deriving DecidableEq, Repr

/-- Outcomes of every external call of one run. `access_ret i` and `mkdir_ret i` are the
values returned by the calls made while `argv[i]` is handled; `pass1` is what `readdir`
yields before `rewinddir`, `pass2` what it yields afterwards. -/
structure World where
  access_ret : Nat → Int
  mkdir_ret : Nat → Int
  atof : CStr → ℚ
  init_ret : Int
  dir_opens : Bool
  pass1 : List DirEnt
  pass2 : List (DirEnt × Outcome)
  release_ret : Int
  coco_cls_to_name : Int → CStr

/-- Observable events of a run, in program order. -/
inductive Ev where
  | usage
  | access (i : Nat) (path : CStr) (ret : Int)
  | mkdir (i : Nat) (path : CStr) (ret : Int)
  | mkdir_failed (path : CStr)
  | init_post_process
  | init_yolo11_model (model_path : CStr) (ret : Int)
  | init_failed (ret : Int)
  | opendir (folder : CStr) (ok : Bool)
  | opendir_failed (folder : CStr)
  | path_too_long
  | rewinddir
  | read_image (path : CStr) (ret : Int)
  | read_failed (path : CStr)
  | debug_start
  | debug_finish
  | inference (path : CStr) (conf nms : ℚ) (ret : Int)
  | inference_failed (path : CStr)
  | image_line (path : CStr) (inference_time : ℚ)
  | progress (image_count total_files : Nat) (percent : ℚ)
  | log_det (cls_name : CStr) (left top right bottom : Int) (prop : ℚ)
  | draw_rectangle (x y w h : Int)
  | draw_text (cls_name : CStr) (prop : ℚ) (x y : Int)
  | write_image (path : CStr)
  | strcpy_overflow
  | record_file (path : CStr) (content : CStr)
  | record_failed (path : CStr)
  | release_image (path : CStr)
  | closedir
  | summary (image_count : Nat) (average : ℚ)
  | no_valid_images
  | deinit_post_process
  | release_yolo11_model (ret : Int)
  | release_failed (ret : Int)
  deriving DecidableEq, Repr

/-- Values resolved by the option loop of `main`. -/
structure RunConfig where
  conf_threshold : ℚ
  nms_threshold : ℚ
  output_dir : Option CStr
  save_txt : Bool
  deriving DecidableEq, Repr

/-- Initial values: `float conf_threshold = 0.3` (the `float` nearest to 0.3 is
`5033165 / 2^24`), `float nms_threshold = 0.5`, `output_dir = nullptr`, `save_txt = 0`. -/
def RunConfig.initial : RunConfig :=
  { conf_threshold := 5033165 / 16777216, nms_threshold := 1 / 2, output_dir := none,
    save_txt := false }

/-- The literal `"--conf"`. -/
def opt_conf : CStr := "--conf".toList

/-- The literal `"--nms"`. -/
def opt_nms : CStr := "--nms".toList

/-- The literal `"--output"`. -/
def opt_output : CStr := "--output".toList

/-- The literal `"--save-txt"`. -/
def opt_save_txt : CStr := "--save-txt".toList

/-- The option loop `for (int i = 3; i < argc; i++)`, started at index `i` with the
remaining arguments `argv[i..]`. Returns the events and the configuration, or `none` when
the loop leaves `main` with `return -1`. -/
def parseOpts (w : World) : Nat → List CStr → RunConfig → List Ev × Option RunConfig
  | _, [], cfg => ([], some cfg)
  | _, [a], cfg =>
    if a = opt_save_txt then ([], some { cfg with save_txt := true })
    else ([], some cfg)
  | i, a :: v :: rest, cfg =>
    if a = opt_conf then
      parseOpts w (i + 2) rest { cfg with conf_threshold := w.atof v }
    else if a = opt_nms then
      parseOpts w (i + 2) rest { cfg with nms_threshold := w.atof v }
    else if a = opt_output then
      if w.access_ret i ≠ 0 then
        if w.mkdir_ret i ≠ 0 then
          ([Ev.access i v (w.access_ret i), Ev.mkdir i v (w.mkdir_ret i), Ev.mkdir_failed v],
            none)
        else
          let r := parseOpts w (i + 2) rest { cfg with output_dir := some v }
          (Ev.access i v (w.access_ret i) :: Ev.mkdir i v (w.mkdir_ret i) :: r.1, r.2)
      else
        let r := parseOpts w (i + 2) rest { cfg with output_dir := some v }
        (Ev.access i v (w.access_ret i) :: r.1, r.2)
    else if a = opt_save_txt then
      parseOpts w (i + 1) (v :: rest) { cfg with save_txt := true }
    else
      parseOpts w (i + 1) (v :: rest) cfg

/-- Text produced by `%d` for a non-negative value. -/
def fmt_u (n : Nat) : CStr := Nat.toDigits 10 n

/-- Text produced by `%d`. -/
def fmt_d (i : Int) : CStr :=
  if i < 0 then '-' :: fmt_u i.natAbs else fmt_u i.natAbs

/-- Nearest natural number to `x ≥ 0`, exact ties going to the even neighbour (the
rounding `printf` applies to the exact value of a `double`). -/
def round_half_even (x : ℚ) : Nat :=
  let f := ⌊x⌋.toNat
  let r := x - f
  if r < 1 / 2 then f
  else if 1 / 2 < r then f + 1
  else if f % 2 = 0 then f else f + 1

/-- Three decimal digits, zero padded on the left. -/
def pad3 (n : Nat) : CStr :=
  List.replicate (3 - (fmt_u n).length) '0' ++ fmt_u n

/-- Text produced by `%.3f` for a finite value. -/
def fmt_f3 (q : ℚ) : CStr :=
  let m := round_half_even (|q| * 1000)
  (if q < 0 then ['-'] else []) ++ fmt_u (m / 1000) ++ '.' :: pad3 (m % 1000)

/-- The header line `fprintf(fp, "ID,PATH,TYPE,SCORE,XMIN,YMIN,XMAX,YMAX\n")` without its
newline. -/
def record_header : CStr := "ID,PATH,TYPE,SCORE,XMIN,YMIN,XMAX,YMAX".toList

/-- Text of `fprintf(fp, "%d,%s,%s,%.3f,%d,%d,%d,%d\n", i, file_path, ...)` without its
newline. -/
def record_row (cls : Int → CStr) (file_path : CStr) (i : Nat) (d : object_detect_result) :
    CStr :=
  fmt_d i ++ ',' :: file_path ++ ',' :: cls d.cls_id ++ ',' :: fmt_f3 d.prop ++
    ',' :: fmt_d d.box.left ++ ',' :: fmt_d d.box.top ++ ',' :: fmt_d d.box.right ++
    ',' :: fmt_d d.box.bottom

/-- The loop `for (int i = 0; i < od_results.count; i++) fprintf(...)`, started at index
`i` with the detections `results[i..]`. -/
def record_rows (cls : Int → CStr) (file_path : CStr) : Nat → List object_detect_result → CStr
  | _, [] => []
  | i, d :: ds => record_row cls file_path i d ++ '\n' :: record_rows cls file_path (i + 1) ds

/-- Everything written to the record file between `fopen` and `fclose`. -/
def record_content (cls : Int → CStr) (file_path : CStr) (results : List object_detect_result) :
    CStr :=
  record_header ++ '\n' :: record_rows cls file_path 0 results

/-- The pointer `input_filename`: the text after the last `/` of `file_path`, or all of it. -/
def input_filename (file_path : CStr) : CStr :=
  match strrchr file_path '/' with
  | some i => file_path.drop (i + 1)
  | none => file_path

/-- The buffer `output_path` after `snprintf(output_path, 1024, "%s/det_%s", ...)`. -/
def output_path (output_dir file_path : CStr) : CStr :=
  (snprintf 1024 (output_dir ++ "/det_".toList ++ input_filename file_path)).1

/-- The buffer `txt_path` after `snprintf`, `strrchr(txt_path, '.')` and
`strcpy(dot, ".txt")`; `none` when `strcpy` writes past the 1024 bytes of the buffer. -/
def txt_path (output_dir file_path : CStr) : Option CStr :=
  let buf := (snprintf 1024 (output_dir ++ "/det_".toList ++ input_filename file_path)).1
  match strrchr buf '.' with
  | some dot => if dot + 5 ≤ 1024 then some (buf.take dot ++ ".txt".toList) else none
  | none => some buf

/-- Body of the detection loop under `if (output_dir != nullptr)`: console line,
rectangle, label. -/
def draw_det (cls : Int → CStr) (d : object_detect_result) : List Ev :=
  [Ev.log_det (cls d.cls_id) d.box.left d.box.top d.box.right d.box.bottom d.prop,
   Ev.draw_rectangle d.box.left d.box.top (d.box.right - d.box.left) (d.box.bottom - d.box.top),
   Ev.draw_text (cls d.cls_id) d.prop d.box.left (d.box.top - 20)]

/-- The block `if (save_txt) { ... }`. A `strcpy` past the buffer is undefined in C; the
model records it and stops describing the record file. -/
def save_txt_stage (cls : Int → CStr) (output_dir file_path : CStr) (o : Outcome) : List Ev :=
  match txt_path output_dir file_path with
  | none => [Ev.strcpy_overflow]
  | some p =>
    if o.fopen_ok then [Ev.record_file p (record_content cls file_path o.results)]
    else [Ev.record_failed p]

/-- The block `if (output_dir != nullptr) { ... }` of the per-image pipeline. -/
def render_stage (cls : Int → CStr) (cfg : RunConfig) (file_path : CStr) (o : Outcome) :
    List Ev :=
  match cfg.output_dir with
  | none => []
  | some output_dir =>
    (o.results.flatMap (draw_det cls)) ++
      Ev.write_image (output_path output_dir file_path) ::
      (if cfg.save_txt then save_txt_stage cls output_dir file_path o else [])

/-- The accumulators `total_inference_time` and `image_count`. -/
structure BatchStats where
  total_inference_time : ℚ
  image_count : Nat
  deriving DecidableEq, Repr

/-- Rounding of a real result to `double`: the nearest binary64 value, ties to even.
The last place has exponent `max (⌊log₂ |q|⌋ - 52) (-1074)` (normal or subnormal); the
significand is the nearest natural number. Overflow to infinity (`|q| ≥ 2^1024`) is out of
reach of sums and quotients of 64-bit clock differences and is not represented. -/
def fl64 (q : ℚ) : ℚ :=
  if q = 0 then 0
  else
    let p : Int := max (Int.log 2 |q| - 52) (-1074)
    let m : Nat := round_half_even (|q| / (2 : ℚ) ^ p)
    (if q < 0 then -(m : ℚ) else (m : ℚ)) * (2 : ℚ) ^ p

/-- The value `inference_time`, a `double`:
`(end.tv_sec - start.tv_sec) + (end.tv_nsec - start.tv_nsec) / 1e9`. Both differences are
`long`; the second is converted and divided by `1e9`, the first is converted and added. -/
def inference_time (o : Outcome) : ℚ :=
  fl64 (fl64 ((o.end_sec - o.start_sec : Int) : ℚ) +
    fl64 (fl64 ((o.end_nsec - o.start_nsec : Int) : ℚ) / 1000000000))

/-- One iteration of the Counting loop. -/
def countEntry (image_folder : CStr) (total_files : Nat) (e : DirEnt) : Nat × List Ev :=
  let p := snprintf MAX_PATH_LEN (image_folder ++ '/' :: e.d_name)
  if p.2 ≥ MAX_PATH_LEN then (total_files, [Ev.path_too_long])
  else if e.stat_ret = 0 ∧ e.is_reg = true then (total_files + 1, [])
  else (total_files, [])

/-- The Counting loop `while ((entry = readdir(dir)) != NULL)` before `rewinddir`. -/
def countLoop (image_folder : CStr) : Nat → List DirEnt → Nat × List Ev
  | total_files, [] => (total_files, [])
  | total_files, e :: es =>
    let r := countEntry image_folder total_files e
    let r2 := countLoop image_folder r.1 es
    (r2.1, r.2 ++ r2.2)

/-- One iteration of the Processing loop. -/
def processEntry (cls : Int → CStr) (cfg : RunConfig) (image_folder : CStr) (total_files : Nat)
    (st : BatchStats) (e : DirEnt) (o : Outcome) : BatchStats × List Ev :=
  let p := snprintf MAX_PATH_LEN (image_folder ++ '/' :: e.d_name)
  let file_path := p.1
  if p.2 ≥ MAX_PATH_LEN then (st, [Ev.path_too_long])
  else if e.stat_ret = 0 ∧ e.is_reg = true then
    if o.read_ret ≠ 0 then
      (st, [Ev.read_image file_path o.read_ret, Ev.read_failed file_path])
    else if o.infer_ret ≠ 0 then
      (st, [Ev.read_image file_path o.read_ret, Ev.debug_start,
            Ev.inference file_path cfg.conf_threshold cfg.nms_threshold o.infer_ret,
            Ev.debug_finish, Ev.inference_failed file_path])
    else
      let st2 : BatchStats :=
        { total_inference_time := fl64 (st.total_inference_time + inference_time o),
          image_count := st.image_count + 1 }
      (st2,
        [Ev.read_image file_path o.read_ret, Ev.debug_start,
         Ev.inference file_path cfg.conf_threshold cfg.nms_threshold o.infer_ret,
         Ev.debug_finish, Ev.image_line file_path (inference_time o),
         Ev.progress st2.image_count total_files
           ((st2.image_count : ℚ) / (total_files : ℚ) * 100)] ++
        render_stage cls cfg file_path o ++ [Ev.release_image file_path])
  else (st, [])

/-- The Processing loop `while ((entry = readdir(dir)) != NULL)` after `rewinddir`. -/
def processLoop (cls : Int → CStr) (cfg : RunConfig) (image_folder : CStr) (total_files : Nat) :
    BatchStats → List (DirEnt × Outcome) → BatchStats × List Ev
  | st, [] => (st, [])
  | st, eo :: es =>
    let r := processEntry cls cfg image_folder total_files st eo.1 eo.2
    let r2 := processLoop cls cfg image_folder total_files r.1 es
    (r2.1, r.2 ++ r2.2)

/-- The final report after `closedir`; the average is the `double` quotient
`total_inference_time / image_count`, the `int` divisor converted first. -/
def report (st : BatchStats) : List Ev :=
  if st.image_count > 0 then
    [Ev.summary st.image_count
      (fl64 (st.total_inference_time / fl64 (st.image_count : ℚ)))]
  else [Ev.no_valid_images]

/-- The code after the label `out:`. -/
def teardown (w : World) : List Ev :=
  Ev.deinit_post_process :: Ev.release_yolo11_model w.release_ret ::
    (if w.release_ret ≠ 0 then [Ev.release_failed w.release_ret] else [])

/-- The code between a successful `opendir` and the label `out:`. -/
def batch (w : World) (cfg : RunConfig) (image_folder : CStr) : List Ev :=
  let c := countLoop image_folder 0 w.pass1
  let r := processLoop w.coco_cls_to_name cfg image_folder c.1
    { total_inference_time := 0, image_count := 0 } w.pass2
  c.2 ++ Ev.rewinddir :: r.2 ++ Ev.closedir :: report r.1

/-- A run: the value returned by `main` and the events in program order. -/
structure Run where
  status : Int
  trace : List Ev
  deriving DecidableEq, Repr

/-- The function `main`, with `argc = argv.length`. -/
def main (argv : List CStr) (w : World) : Run :=
  if argv.length < 3 then { status := -1, trace := [Ev.usage] }
  else
    let model_path := argv.getD 1 []
    let image_folder := argv.getD 2 []
    match parseOpts w 3 (argv.drop 3) RunConfig.initial with
    | (tr, none) => { status := -1, trace := tr }
    | (tr, some cfg) =>
      if w.init_ret ≠ 0 then
        { status := w.init_ret,
          trace := tr ++ [Ev.init_post_process, Ev.init_yolo11_model model_path w.init_ret,
                          Ev.init_failed w.init_ret] }
      else if w.dir_opens = false then
        { status := 0,
          trace := tr ++ [Ev.init_post_process, Ev.init_yolo11_model model_path w.init_ret,
                          Ev.opendir image_folder false, Ev.opendir_failed image_folder] ++
                   teardown w }
      else
        { status := 0,
          trace := tr ++ [Ev.init_post_process, Ev.init_yolo11_model model_path w.init_ret,
                          Ev.opendir image_folder true] ++
                   batch w cfg image_folder ++ teardown w }

/-! ## Vocabulary of the statements -/

/-- The text `"%s/%s"` of `image_folder` and `entry->d_name`. -/
def joined_path (image_folder : CStr) (e : DirEnt) : CStr :=
  image_folder ++ '/' :: e.d_name

/-- The filter of the specification: joined path shorter than 1024 bytes, `stat` succeeds,
`S_ISREG`. -/
def is_selected (image_folder : CStr) (e : DirEnt) : Bool :=
  decide (image_folder.length + 1 + e.d_name.length < 1024) && decide (e.stat_ret = 0) && e.is_reg

/-- A selected entry for which `read_image` and `inference_yolo11_model` both returned 0. -/
def is_inferred (image_folder : CStr) (eo : DirEnt × Outcome) : Bool :=
  is_selected image_folder eo.1 && decide (eo.2.read_ret = 0) && decide (eo.2.infer_ret = 0)

/-- The path of a `read_image` call. -/
def Ev.read_path : Ev → Option CStr
  | .read_image p _ => some p
  | _ => none

/-- The path whose buffer is released. -/
def Ev.released : Ev → Option CStr
  | .release_image p => some p
  | _ => none

/-- The path given to `write_image`. -/
def Ev.written : Ev → Option CStr
  | .write_image p => some p
  | _ => none

/-- The path of the record file that is opened (or fails to open). -/
def Ev.record_path : Ev → Option CStr
  | .record_file p _ => some p
  | .record_failed p => some p
  | _ => none

/-- The path and the content of a record file that was opened and written. -/
def Ev.record_written : Ev → Option (CStr × CStr)
  | .record_file p c => some (p, c)
  | _ => none

/-- The detection line printed to standard output. -/
def Ev.logged : Ev → Option (CStr × Int × Int × Int × Int × ℚ)
  | .log_det n l t r b p => some (n, l, t, r, b, p)
  | _ => none

/-- The console line of one detection: class name, box, score. -/
def log_line (cls : Int → CStr) (d : object_detect_result) : CStr × Int × Int × Int × Int × ℚ :=
  (cls d.cls_id, d.box.left, d.box.top, d.box.right, d.box.bottom, d.prop)

/-- The counter shown by a progress line. -/
def Ev.progress_count : Ev → Option Nat
  | .progress c _ _ => some c
  | _ => none

/-- The two lines of the final report. -/
def Ev.is_report : Ev → Bool
  | .summary _ _ => true
  | .no_valid_images => true
  | _ => false

/-- Events of the render/write stage: console line, drawing, image and record file. -/
def Ev.is_render : Ev → Bool
  | .log_det _ _ _ _ _ _ => true
  | .draw_rectangle _ _ _ _ => true
  | .draw_text _ _ _ _ => true
  | .write_image _ => true
  | .strcpy_overflow => true
  | .record_file _ _ => true
  | .record_failed _ => true
  | _ => false

/-- Events of the option loop. -/
def Ev.is_option : Ev → Bool
  | .access _ _ _ => true
  | .mkdir _ _ _ => true
  | .mkdir_failed _ => true
  | _ => false

/-- Events of the two directory loops. -/
def Ev.is_loop : Ev → Bool
  | .path_too_long => true
  | .read_image _ _ => true
  | .read_failed _ => true
  | .debug_start => true
  | .debug_finish => true
  | .inference _ _ _ _ => true
  | .inference_failed _ => true
  | .image_line _ _ => true
  | .progress _ _ _ => true
  | .release_image _ => true
  | e => e.is_render

/-! ## Sample runs -/


/-- One detection: class 0, score 0.87, box (10, 20, 110, 220). -/
def sample_det : object_detect_result :=
  { box := { left := 10, top := 20, right := 110, bottom := 220 }, prop := 87 / 100, cls_id := 0 }

/-- A run over a folder holding `a.jpg` (decoded and inferred in 2.5 s, one detection), the
directory `sub`, `b.png` (decode fails) and `c.jpg` (inference fails). -/
def sample_world : World :=
  { access_ret := fun _ => 0
    mkdir_ret := fun _ => 0
    atof := fun _ => 0
    init_ret := 0
    dir_opens := true
    pass1 := [⟨"a.jpg".toList, 0, true⟩, ⟨"sub".toList, 0, false⟩, ⟨"b.png".toList, 0, true⟩,
      ⟨"c.jpg".toList, 0, true⟩]
    pass2 :=
      [(⟨"a.jpg".toList, 0, true⟩, ⟨0, 100, 250000000, 102, 750000000, 0, [sample_det], true⟩),
       (⟨"sub".toList, 0, false⟩, ⟨0, 0, 0, 0, 0, 0, [], true⟩),
       (⟨"b.png".toList, 0, true⟩, ⟨-1, 0, 0, 0, 0, 0, [], true⟩),
       (⟨"c.jpg".toList, 0, true⟩, ⟨0, 103, 0, 104, 0, -1, [], true⟩)]
    release_ret := 0
    coco_cls_to_name := fun _ => "person".toList }

/-- The command line `demo model.rknn imgs --output out --save-txt`. -/
def sample_argv : List CStr :=
  ["demo".toList, "model.rknn".toList, "imgs".toList, opt_output, "out".toList, opt_save_txt]

/-- The command line `demo model.rknn imgs`, without options. -/
def plain_argv : List CStr :=
  ["demo".toList, "model.rknn".toList, "imgs".toList]

/-- A folder holding the single regular file `c.jpg`, which decodes but whose inference
returns -1. -/
def infer_fails_world : World :=
  { sample_world with
    pass1 := [⟨"c.jpg".toList, 0, true⟩]
    pass2 := [(⟨"c.jpg".toList, 0, true⟩, ⟨0, 103, 0, 104, 0, -1, [], true⟩)] }

/-- A run in which `init_yolo11_model` returns -1. -/
def init_fails_world : World :=
  { sample_world with init_ret := -1 }

/-- A folder holding the single regular file `img` (no extension), decoded and inferred. -/
def plain_name_world : World :=
  { sample_world with
    pass1 := [⟨"img".toList, 0, true⟩]
    pass2 := [(⟨"img".toList, 0, true⟩, ⟨0, 100, 0, 101, 0, 0, [sample_det], true⟩)] }

/-- The command line `demo model.rknn ./imgs --output ./out --save-txt`. -/
def dotted_dir_argv : List CStr :=
  ["demo".toList, "model.rknn".toList, "./imgs".toList, opt_output, "./out".toList,
    opt_save_txt]

/-- A run in which the output directory is absent and `mkdir` fails. -/
def mkdir_fails_world : World :=
  { sample_world with access_ret := fun _ => -1, mkdir_ret := fun _ => -1 }

/-- A folder holding three regular files, each decoded and inferred; the clock readings
around the three inferences are 1 s, 1 s and 2 s apart. -/
def thirds_world : World :=
  { sample_world with
    pass1 := [⟨"a.jpg".toList, 0, true⟩, ⟨"b.jpg".toList, 0, true⟩, ⟨"c.jpg".toList, 0, true⟩]
    pass2 :=
      [(⟨"a.jpg".toList, 0, true⟩, ⟨0, 10, 0, 11, 0, 0, [], true⟩),
       (⟨"b.jpg".toList, 0, true⟩, ⟨0, 20, 0, 21, 0, 0, [], true⟩),
       (⟨"c.jpg".toList, 0, true⟩, ⟨0, 30, 0, 32, 0, 0, [], true⟩)] }

/-! ## Strings -/

theorem snprintf_snd (n : Nat) (t : CStr) : (snprintf n t).2 = t.length := rfl

theorem snprintf_fst_of_lt (t : CStr) (h : t.length < 1024) : (snprintf 1024 t).1 = t := by
  simp only [snprintf]
  exact List.take_of_length_le (by omega)

theorem strrchr_eq_none_iff (s : CStr) (c : Char) : strrchr s c = none ↔ c ∉ s := by
  induction s with
  | nil => simp [strrchr]
  | cons x xs ih =>
    simp only [strrchr, List.mem_cons, not_or]
    cases h : strrchr xs c with
    | none =>
      have hx := ih.mp h
      by_cases hxc : x = c
      · simp [hxc]
      · simp [hxc, hx, Ne.symm hxc]
    | some i =>
      have hx : ¬ (c ∉ xs) := fun hc => by
        rw [ih.mpr hc] at h
        cases h
      simp [hx]

theorem strrchr_append_cons (a b : CStr) (c : Char) (hb : c ∉ b) :
    strrchr (a ++ c :: b) c = some a.length := by
  induction a with
  | nil => simp [strrchr, (strrchr_eq_none_iff b c).mpr hb]
  | cons x xs ih => simp [strrchr, ih]

theorem input_filename_joined (image_folder : CStr) (e : DirEnt) (h : '/' ∉ e.d_name) :
    input_filename (joined_path image_folder e) = e.d_name := by
  simp [input_filename, joined_path, strrchr_append_cons image_folder e.d_name '/' h]

theorem joined_path_length (image_folder : CStr) (e : DirEnt) :
    (joined_path image_folder e).length = image_folder.length + 1 + e.d_name.length := by
  simp [joined_path]
  omega

/-! ## The two directory loops -/

theorem countEntry_eq (image_folder : CStr) (n : Nat) (e : DirEnt) :
    countEntry image_folder n e =
      if is_selected image_folder e then (n + 1, [])
      else (n, if 1024 ≤ (joined_path image_folder e).length then [Ev.path_too_long] else []) := by
  have hl := joined_path_length image_folder e
  simp only [countEntry, snprintf_snd, MAX_PATH_LEN, is_selected, ge_iff_le]
  rw [show image_folder ++ '/' :: e.d_name = joined_path image_folder e from rfl]
  by_cases h1 : 1024 ≤ (joined_path image_folder e).length
  · have : ¬ (image_folder.length + 1 + e.d_name.length < 1024) := by omega
    simp [h1, this]
  · have : image_folder.length + 1 + e.d_name.length < 1024 := by omega
    by_cases h2 : e.stat_ret = 0 <;> by_cases h3 : e.is_reg = true <;> simp [h1, this, h2, h3]

theorem processEntry_eq (cls : Int → CStr) (cfg : RunConfig) (image_folder : CStr) (t : Nat)
    (st : BatchStats) (e : DirEnt) (o : Outcome) :
    processEntry cls cfg image_folder t st e o =
      if is_selected image_folder e then
        if o.read_ret ≠ 0 then
          (st, [Ev.read_image (joined_path image_folder e) o.read_ret,
                Ev.read_failed (joined_path image_folder e)])
        else if o.infer_ret ≠ 0 then
          (st, [Ev.read_image (joined_path image_folder e) o.read_ret, Ev.debug_start,
                Ev.inference (joined_path image_folder e) cfg.conf_threshold cfg.nms_threshold
                  o.infer_ret,
                Ev.debug_finish, Ev.inference_failed (joined_path image_folder e)])
        else
          ({ total_inference_time := fl64 (st.total_inference_time + inference_time o),
             image_count := st.image_count + 1 },
            [Ev.read_image (joined_path image_folder e) o.read_ret, Ev.debug_start,
             Ev.inference (joined_path image_folder e) cfg.conf_threshold cfg.nms_threshold
               o.infer_ret,
             Ev.debug_finish, Ev.image_line (joined_path image_folder e) (inference_time o),
             Ev.progress (st.image_count + 1) t
               (((st.image_count + 1 : Nat) : ℚ) / (t : ℚ) * 100)] ++
            render_stage cls cfg (joined_path image_folder e) o ++
            [Ev.release_image (joined_path image_folder e)])
      else (st, if 1024 ≤ (joined_path image_folder e).length then [Ev.path_too_long] else []) := by
  have hl := joined_path_length image_folder e
  simp only [processEntry, snprintf_snd, MAX_PATH_LEN, is_selected, ge_iff_le]
  rw [show image_folder ++ '/' :: e.d_name = joined_path image_folder e from rfl]
  by_cases h1 : 1024 ≤ (joined_path image_folder e).length
  · have : ¬ (image_folder.length + 1 + e.d_name.length < 1024) := by omega
    simp [h1, this]
  · have h0 : image_folder.length + 1 + e.d_name.length < 1024 := by omega
    have hp : (snprintf 1024 (joined_path image_folder e)).1 = joined_path image_folder e :=
      snprintf_fst_of_lt _ (by omega)
    by_cases h2 : e.stat_ret = 0 <;> by_cases h3 : e.is_reg = true <;>
      simp [h1, h0, h2, h3, hp]

theorem filterMap_nil_of_forall {α β : Type} (g : α → Option β) (l : List α)
    (h : ∀ e ∈ l, g e = none) : l.filterMap g = [] := by
  induction l with
  | nil => rfl
  | cons x xs ih =>
    have hx : g x = none := h x (List.mem_cons_self x xs)
    rw [List.filterMap_cons, hx]
    exact ih (fun e he => h e (List.mem_cons_of_mem x he))

theorem save_txt_stage_render (cls : Int → CStr) (d p : CStr) (o : Outcome) :
    ∀ e ∈ save_txt_stage cls d p o, e.is_render = true := by
  intro e he
  simp only [save_txt_stage] at he
  split at he
  · simp at he; subst he; rfl
  · split at he <;> simp at he <;> subst he <;> rfl

theorem render_stage_render (cls : Int → CStr) (cfg : RunConfig) (p : CStr) (o : Outcome) :
    ∀ e ∈ render_stage cls cfg p o, e.is_render = true := by
  intro e he
  simp only [render_stage] at he
  split at he
  · simp at he
  · simp only [List.mem_append, List.mem_flatMap, List.mem_cons] at he
    rcases he with ⟨d, _, hd⟩ | he | he
    · simp [draw_det] at hd
      rcases hd with h | h | h <;> subst h <;> rfl
    · subst he; rfl
    · split at he
      · exact save_txt_stage_render cls _ p o e he
      · simp at he

theorem render_stage_none (cls : Int → CStr) (cfg : RunConfig) (p : CStr) (o : Outcome)
    (h : cfg.output_dir = none) : render_stage cls cfg p o = [] := by
  simp [render_stage, h]

theorem countLoop_fst (image_folder : CStr) (l : List DirEnt) :
    ∀ n, (countLoop image_folder n l).1 = n + (l.filter (is_selected image_folder)).length := by
  induction l with
  | nil => intro n; simp [countLoop]
  | cons e es ih =>
    intro n
    simp only [countLoop, ih, countEntry_eq]
    by_cases hs : is_selected image_folder e = true
    · simp [hs]; omega
    · simp [hs]

theorem countLoop_trace (image_folder : CStr) (l : List DirEnt) :
    ∀ n, ∀ e ∈ (countLoop image_folder n l).2, e = Ev.path_too_long := by
  induction l with
  | nil => intro n e he; simp [countLoop] at he
  | cons x xs ih =>
    intro n e he
    simp only [countLoop, List.mem_append, countEntry_eq] at he
    rcases he with he | he
    · by_cases hs : is_selected image_folder x = true
      · simp [hs] at he
      · simp [hs] at he
        exact he.2
    · exact ih _ e he

theorem is_render_is_loop (e : Ev) (h : e.is_render = true) : e.is_loop = true := by
  cases e <;> simp_all [Ev.is_render, Ev.is_loop]

theorem processEntry_trace_loop (cls : Int → CStr) (cfg : RunConfig) (image_folder : CStr)
    (t : Nat) (st : BatchStats) (e : DirEnt) (o : Outcome) :
    ∀ x ∈ (processEntry cls cfg image_folder t st e o).2, x.is_loop = true := by
  intro x hx
  rw [processEntry_eq] at hx
  split at hx
  · split at hx
    · simp at hx; rcases hx with h | h <;> subst h <;> rfl
    · split at hx
      · simp at hx; rcases hx with h | h | h | h | h <;> subst h <;> rfl
      · simp only [List.mem_append, List.mem_cons, List.mem_singleton, List.not_mem_nil,
          or_false] at hx
        rcases hx with ((h | h | h | h | h | h) | h) | h
        · subst h; rfl
        · subst h; rfl
        · subst h; rfl
        · subst h; rfl
        · subst h; rfl
        · subst h; rfl
        · exact is_render_is_loop x (render_stage_render cls cfg _ o x h)
        · subst h; rfl
  · split at hx <;> simp at hx
    subst hx; rfl

theorem processLoop_trace_loop (cls : Int → CStr) (cfg : RunConfig) (image_folder : CStr)
    (t : Nat) (l : List (DirEnt × Outcome)) :
    ∀ st, ∀ x ∈ (processLoop cls cfg image_folder t st l).2, x.is_loop = true := by
  induction l with
  | nil => intro st x hx; simp [processLoop] at hx
  | cons eo es ih =>
    intro st x hx
    simp only [processLoop, List.mem_append] at hx
    rcases hx with hx | hx
    · exact processEntry_trace_loop cls cfg image_folder t st eo.1 eo.2 x hx
    · exact ih _ x hx

theorem processLoop_stats (cls : Int → CStr) (cfg : RunConfig) (image_folder : CStr)
    (t : Nat) (l : List (DirEnt × Outcome)) :
    ∀ st, (processLoop cls cfg image_folder t st l).1 =
      { total_inference_time :=
          (l.filter (is_inferred image_folder)).foldl
            (fun acc eo => fl64 (acc + inference_time eo.2)) st.total_inference_time,
        image_count := st.image_count + (l.filter (is_inferred image_folder)).length } := by
  induction l with
  | nil => intro st; simp [processLoop]
  | cons eo es ih =>
    intro st
    simp only [processLoop, ih, processEntry_eq]
    by_cases hs : is_selected image_folder eo.1 = true
    · by_cases hr : eo.2.read_ret = 0
      · by_cases hi : eo.2.infer_ret = 0
        · have hinf : is_inferred image_folder eo = true := by simp [is_inferred, hs, hr, hi]
          simp [hs, hr, hi, List.filter_cons, hinf]
          omega
        · have hinf : is_inferred image_folder eo = false := by simp [is_inferred, hi]
          simp [hs, hr, hi, List.filter_cons, hinf]
      · have hinf : is_inferred image_folder eo = false := by simp [is_inferred, hr]
        simp [hs, hr, List.filter_cons, hinf]
    · have hinf : is_inferred image_folder eo = false := by simp [is_inferred, hs]
      simp [hs, List.filter_cons, hinf]

theorem render_read_path (e : Ev) (h : e.is_render = true) : e.read_path = none := by
  cases e <;> simp_all [Ev.is_render, Ev.read_path]

theorem render_released (e : Ev) (h : e.is_render = true) : e.released = none := by
  cases e <;> simp_all [Ev.is_render, Ev.released]

theorem render_progress_count (e : Ev) (h : e.is_render = true) : e.progress_count = none := by
  cases e <;> simp_all [Ev.is_render, Ev.progress_count]

theorem render_stage_filterMap_nil {β : Type} (g : Ev → Option β)
    (hg : ∀ e : Ev, e.is_render = true → g e = none)
    (cls : Int → CStr) (cfg : RunConfig) (p : CStr) (o : Outcome) :
    (render_stage cls cfg p o).filterMap g = [] :=
  filterMap_nil_of_forall g _ (fun e he => hg e (render_stage_render cls cfg p o e he))

theorem save_txt_stage_written (cls : Int → CStr) (d p : CStr) (o : Outcome) :
    (save_txt_stage cls d p o).filterMap Ev.written = [] := by
  simp only [save_txt_stage]
  split
  · rfl
  · split <;> rfl

theorem save_txt_stage_logged (cls : Int → CStr) (d p : CStr) (o : Outcome) :
    (save_txt_stage cls d p o).filterMap Ev.logged = [] := by
  simp only [save_txt_stage]
  split
  · rfl
  · split <;> rfl

theorem draw_dets_written (cls : Int → CStr) (ds : List object_detect_result) :
    (ds.flatMap (draw_det cls)).filterMap Ev.written = [] := by
  induction ds with
  | nil => rfl
  | cons d ds ih => simp [List.flatMap_cons, List.filterMap_append, ih, draw_det, Ev.written]

theorem draw_dets_logged (cls : Int → CStr) (ds : List object_detect_result) :
    (ds.flatMap (draw_det cls)).filterMap Ev.logged = ds.map (log_line cls) := by
  induction ds with
  | nil => rfl
  | cons d ds ih =>
    simp [List.flatMap_cons, List.filterMap_append, ih, draw_det, Ev.logged, log_line]

theorem render_stage_written (cls : Int → CStr) (cfg : RunConfig) (p d : CStr) (o : Outcome)
    (h : cfg.output_dir = some d) :
    (render_stage cls cfg p o).filterMap Ev.written = [output_path d p] := by
  simp only [render_stage, h, List.filterMap_append, draw_dets_written, List.nil_append,
    List.filterMap_cons, Ev.written]
  split
  · simp [save_txt_stage_written]
  · simp

theorem render_stage_logged (cls : Int → CStr) (cfg : RunConfig) (p d : CStr) (o : Outcome)
    (h : cfg.output_dir = some d) :
    (render_stage cls cfg p o).filterMap Ev.logged = o.results.map (log_line cls) := by
  simp only [render_stage, h, List.filterMap_append, draw_dets_logged,
    List.filterMap_cons, Ev.logged]
  split
  · simp [save_txt_stage_logged]
  · simp

theorem processLoop_read (cls : Int → CStr) (cfg : RunConfig) (image_folder : CStr)
    (t : Nat) (l : List (DirEnt × Outcome)) :
    ∀ st, (processLoop cls cfg image_folder t st l).2.filterMap Ev.read_path =
      ((l.map Prod.fst).filter (is_selected image_folder)).map (joined_path image_folder) := by
  induction l with
  | nil => intro st; simp [processLoop]
  | cons eo es ih =>
    intro st
    simp only [processLoop, List.filterMap_append, ih, processEntry_eq, List.map_cons,
      List.filter_cons]
    by_cases hs : is_selected image_folder eo.1 = true
    · by_cases hr : eo.2.read_ret = 0
      · by_cases hi : eo.2.infer_ret = 0
        · simp [hs, hr, hi, Ev.read_path, List.filterMap_append,
            render_stage_filterMap_nil Ev.read_path render_read_path]
        · simp [hs, hr, hi, Ev.read_path]
      · simp [hs, hr, Ev.read_path]
    · have hs2 : is_selected image_folder eo.1 = false := by simpa using hs
      simp only [hs2, Bool.false_eq_true, if_false]
      split <;> simp [Ev.read_path]

theorem processLoop_released (cls : Int → CStr) (cfg : RunConfig) (image_folder : CStr)
    (t : Nat) (l : List (DirEnt × Outcome)) :
    ∀ st, (processLoop cls cfg image_folder t st l).2.filterMap Ev.released =
      (l.filter (is_inferred image_folder)).map (fun eo => joined_path image_folder eo.1) := by
  induction l with
  | nil => intro st; simp [processLoop]
  | cons eo es ih =>
    intro st
    simp only [processLoop, List.filterMap_append, ih, processEntry_eq, List.filter_cons]
    by_cases hs : is_selected image_folder eo.1 = true
    · by_cases hr : eo.2.read_ret = 0
      · by_cases hi : eo.2.infer_ret = 0
        · have hinf : is_inferred image_folder eo = true := by simp [is_inferred, hs, hr, hi]
          simp [hs, hr, hi, hinf, Ev.released, List.filterMap_append,
            render_stage_filterMap_nil Ev.released render_released]
        · have hinf : is_inferred image_folder eo = false := by simp [is_inferred, hi]
          simp [hs, hr, hi, hinf, Ev.released]
      · have hinf : is_inferred image_folder eo = false := by simp [is_inferred, hr]
        simp [hs, hr, hinf, Ev.released]
    · have hinf : is_inferred image_folder eo = false := by simp [is_inferred, hs]
      have hs2 : is_selected image_folder eo.1 = false := by simpa using hs
      simp only [hs2, hinf, Bool.false_eq_true, if_false]
      split <;> simp [Ev.released]

theorem processLoop_written (cls : Int → CStr) (cfg : RunConfig) (image_folder d : CStr)
    (t : Nat) (hd : cfg.output_dir = some d) (l : List (DirEnt × Outcome)) :
    ∀ st, (processLoop cls cfg image_folder t st l).2.filterMap Ev.written =
      (l.filter (is_inferred image_folder)).map
        (fun eo => output_path d (joined_path image_folder eo.1)) := by
  induction l with
  | nil => intro st; simp [processLoop]
  | cons eo es ih =>
    intro st
    simp only [processLoop, List.filterMap_append, ih, processEntry_eq, List.filter_cons]
    by_cases hs : is_selected image_folder eo.1 = true
    · by_cases hr : eo.2.read_ret = 0
      · by_cases hi : eo.2.infer_ret = 0
        · have hinf : is_inferred image_folder eo = true := by simp [is_inferred, hs, hr, hi]
          simp [hs, hr, hi, hinf, Ev.written, List.filterMap_append,
            render_stage_written cls cfg _ d eo.2 hd]
        · have hinf : is_inferred image_folder eo = false := by simp [is_inferred, hi]
          simp [hs, hr, hi, hinf, Ev.written]
      · have hinf : is_inferred image_folder eo = false := by simp [is_inferred, hr]
        simp [hs, hr, hinf, Ev.written]
    · have hinf : is_inferred image_folder eo = false := by simp [is_inferred, hs]
      have hs2 : is_selected image_folder eo.1 = false := by simpa using hs
      simp only [hs2, hinf, Bool.false_eq_true, if_false]
      split <;> simp [Ev.written]

theorem processLoop_logged (cls : Int → CStr) (cfg : RunConfig) (image_folder d : CStr)
    (t : Nat) (hd : cfg.output_dir = some d) (l : List (DirEnt × Outcome)) :
    ∀ st, (processLoop cls cfg image_folder t st l).2.filterMap Ev.logged =
      (l.filter (is_inferred image_folder)).flatMap
        (fun eo => eo.2.results.map (log_line cls)) := by
  induction l with
  | nil => intro st; simp [processLoop]
  | cons eo es ih =>
    intro st
    simp only [processLoop, List.filterMap_append, ih, processEntry_eq, List.filter_cons]
    by_cases hs : is_selected image_folder eo.1 = true
    · by_cases hr : eo.2.read_ret = 0
      · by_cases hi : eo.2.infer_ret = 0
        · have hinf : is_inferred image_folder eo = true := by simp [is_inferred, hs, hr, hi]
          simp [hs, hr, hi, hinf, Ev.logged, List.filterMap_append,
            render_stage_logged cls cfg _ d eo.2 hd]
        · have hinf : is_inferred image_folder eo = false := by simp [is_inferred, hi]
          simp [hs, hr, hi, hinf, Ev.logged]
      · have hinf : is_inferred image_folder eo = false := by simp [is_inferred, hr]
        simp [hs, hr, hinf, Ev.logged]
    · have hinf : is_inferred image_folder eo = false := by simp [is_inferred, hs]
      have hs2 : is_selected image_folder eo.1 = false := by simpa using hs
      simp only [hs2, hinf, Bool.false_eq_true, if_false]
      split <;> simp [Ev.logged]

theorem processLoop_progress (cls : Int → CStr) (cfg : RunConfig) (image_folder : CStr)
    (t : Nat) (l : List (DirEnt × Outcome)) :
    ∀ st, (processLoop cls cfg image_folder t st l).2.filterMap Ev.progress_count =
      List.range' (st.image_count + 1) (l.filter (is_inferred image_folder)).length := by
  induction l with
  | nil => intro st; simp [processLoop]
  | cons eo es ih =>
    intro st
    simp only [processLoop, List.filterMap_append, ih, processEntry_eq, List.filter_cons]
    by_cases hs : is_selected image_folder eo.1 = true
    · by_cases hr : eo.2.read_ret = 0
      · by_cases hi : eo.2.infer_ret = 0
        · have hinf : is_inferred image_folder eo = true := by simp [is_inferred, hs, hr, hi]
          simp [hs, hr, hi, hinf, Ev.progress_count, List.filterMap_append,
            render_stage_filterMap_nil Ev.progress_count render_progress_count, List.range'_succ]
        · have hinf : is_inferred image_folder eo = false := by simp [is_inferred, hi]
          simp [hs, hr, hi, hinf, Ev.progress_count]
      · have hinf : is_inferred image_folder eo = false := by simp [is_inferred, hr]
        simp [hs, hr, hinf, Ev.progress_count]
    · have hinf : is_inferred image_folder eo = false := by simp [is_inferred, hs]
      have hs2 : is_selected image_folder eo.1 = false := by simpa using hs
      simp only [hs2, hinf, Bool.false_eq_true, if_false]
      split <;> simp [Ev.progress_count]

theorem processEntry_count (cls : Int → CStr) (cfg : RunConfig) (image_folder : CStr)
    (t : Nat) (st : BatchStats) (eo : DirEnt × Outcome) :
    (processEntry cls cfg image_folder t st eo.1 eo.2).1.image_count =
      st.image_count + (if is_inferred image_folder eo = true then 1 else 0) := by
  have h := processLoop_stats cls cfg image_folder t [eo] st
  simp only [processLoop] at h
  rw [h]
  by_cases hinf : is_inferred image_folder eo = true
  · simp [List.filter_cons, hinf]
  · simp [List.filter_cons, hinf]

theorem processLoop_progress_mem (cls : Int → CStr) (cfg : RunConfig) (image_folder : CStr)
    (t : Nat) (l : List (DirEnt × Outcome)) :
    ∀ st c t2 pct, Ev.progress c t2 pct ∈ (processLoop cls cfg image_folder t st l).2 →
      t2 = t ∧ pct = (c : ℚ) / (t : ℚ) * 100 ∧ st.image_count + 1 ≤ c ∧
        c ≤ st.image_count + (l.filter (is_inferred image_folder)).length := by
  induction l with
  | nil => intro st c t2 pct h; simp [processLoop] at h
  | cons eo es ih =>
    intro st c t2 pct h
    simp only [processLoop, List.mem_append] at h
    rcases h with h | h
    · rw [processEntry_eq] at h
      by_cases hs : is_selected image_folder eo.1 = true
      · by_cases hr : eo.2.read_ret = 0
        · by_cases hi : eo.2.infer_ret = 0
          · have hinf : is_inferred image_folder eo = true := by simp [is_inferred, hs, hr, hi]
            simp only [hs, hr, hi, ne_eq, not_true_eq_false, if_true, if_false, List.mem_append,
              List.mem_cons, List.mem_singleton, List.not_mem_nil, or_false] at h
            rcases h with ((h | h | h | h | h | h) | h) | h
            · cases h
            · cases h
            · cases h
            · cases h
            · cases h
            · cases h
              simp [List.filter_cons, hinf]
            · have := render_stage_render cls cfg _ eo.2 _ h
              simp [Ev.is_render] at this
            · cases h
          · simp [hs, hr, hi] at h
        · simp [hs, hr] at h
      · have hs2 : is_selected image_folder eo.1 = false := by simpa using hs
        simp only [hs2, Bool.false_eq_true, if_false] at h
        split at h <;> simp at h
    · have := ih _ c t2 pct h
      rw [processEntry_count] at this
      obtain ⟨h1, h2, h3, h4⟩ := this
      refine ⟨h1, h2, ?_, ?_⟩
      · omega
      · cases hinf : is_inferred image_folder eo <;>
          simp [List.filter_cons, hinf] at h4 ⊢ <;> omega

theorem parseOpts_trace_option (w : World) (i : Nat) (l : List CStr) (cfg : RunConfig) :
    ∀ e ∈ (parseOpts w i l cfg).1, e.is_option = true := by
  induction i, l, cfg using parseOpts.induct w with
  | case1 => intro e he; simp [parseOpts] at he
  | case2 => intro e he; simp [parseOpts] at he
  | case3 x a cfg h => intro e he; simp [parseOpts, h] at he
  | case4 i v rest cfg ih => intro e he; simp only [parseOpts, if_true] at he; exact ih e he
  | case5 i v rest cfg h ih => intro e he; simp only [parseOpts, h, if_true, if_false] at he; exact ih e he
  | case6 i v rest cfg h1 h2 h3 h4 =>
    intro e he
    simp [parseOpts, h1, h2, h3, h4] at he
    rcases he with h | h | h <;> subst h <;> rfl
  | case7 i v rest cfg h1 h2 h3 h4 ih =>
    intro e he
    simp [parseOpts, h1, h2, h3, h4] at he
    simp at h2
    rcases he with h | h | h
    · subst h; rfl
    · subst h; rfl
    · exact ih e h
  | case8 i v rest cfg h1 h3 h4 ih =>
    intro e he
    simp [parseOpts, h1, h3, h4] at he
    rcases he with h | h
    · subst h; rfl
    · exact ih e h
  | case9 i v rest cfg h1 h2 h3 ih =>
    intro e he
    simp only [parseOpts, h1, h2, h3, if_true, if_false] at he
    exact ih e he
  | case10 i a v rest cfg h1 h2 h3 h4 ih =>
    intro e he
    simp only [parseOpts, h1, h2, h3, h4, if_false] at he
    exact ih e he

theorem opt_output_ne_conf : ¬ opt_output = opt_conf := by decide

theorem opt_output_ne_nms : ¬ opt_output = opt_nms := by decide

theorem parseOpts_output_fail (w : World) (i : Nat) (v : CStr) (rest : List CStr)
    (cfg : RunConfig) (h1 : w.access_ret i ≠ 0) (h2 : w.mkdir_ret i ≠ 0) :
    parseOpts w i (opt_output :: v :: rest) cfg =
      ([Ev.access i v (w.access_ret i), Ev.mkdir i v (w.mkdir_ret i), Ev.mkdir_failed v],
        none) := by
  simp [parseOpts, h1, h2, opt_output_ne_conf, opt_output_ne_nms]

theorem parseOpts_output_created (w : World) (i : Nat) (v : CStr) (rest : List CStr)
    (cfg : RunConfig) (h1 : w.access_ret i ≠ 0) (h2 : ¬ w.mkdir_ret i ≠ 0) :
    parseOpts w i (opt_output :: v :: rest) cfg =
      (Ev.access i v (w.access_ret i) :: Ev.mkdir i v (w.mkdir_ret i) ::
        (parseOpts w (i + 2) rest { cfg with output_dir := some v }).1,
       (parseOpts w (i + 2) rest { cfg with output_dir := some v }).2) := by
  simp [parseOpts, h1, h2, opt_output_ne_conf, opt_output_ne_nms]

theorem parseOpts_output_exists (w : World) (i : Nat) (v : CStr) (rest : List CStr)
    (cfg : RunConfig) (h1 : ¬ w.access_ret i ≠ 0) :
    parseOpts w i (opt_output :: v :: rest) cfg =
      (Ev.access i v (w.access_ret i) ::
        (parseOpts w (i + 2) rest { cfg with output_dir := some v }).1,
       (parseOpts w (i + 2) rest { cfg with output_dir := some v }).2) := by
  simp [parseOpts, h1, opt_output_ne_conf, opt_output_ne_nms]

theorem parseOpts_mkdir_mem (w : World) (i : Nat) (l : List CStr) (cfg : RunConfig) :
    ∀ j p r, Ev.mkdir j p r ∈ (parseOpts w i l cfg).1 →
      i ≤ j ∧ l[j - i]? = some opt_output ∧ l[j - i + 1]? = some p ∧
        r = w.mkdir_ret j ∧ w.access_ret j ≠ 0 := by
  induction i, l, cfg using parseOpts.induct w with
  | case1 => intro j p r he; simp [parseOpts] at he
  | case2 => intro j p r he; simp [parseOpts] at he
  | case3 x a cfg h => intro j p r he; simp [parseOpts, h] at he
  | case4 i v rest cfg ih =>
    intro j p r he
    simp only [parseOpts, if_true] at he
    obtain ⟨h1, h2, h3, h4⟩ := ih j p r he
    have e1 : j - i = (j - (i + 2)) + 2 := by omega
    refine ⟨by omega, ?_, ?_, h4⟩
    · rw [e1]; simpa using h2
    · rw [e1]; simpa using h3
  | case5 i v rest cfg h ih =>
    intro j p r he
    simp only [parseOpts, h, if_true, if_false] at he
    obtain ⟨h1, h2, h3, h4⟩ := ih j p r he
    have e1 : j - i = (j - (i + 2)) + 2 := by omega
    refine ⟨by omega, ?_, ?_, h4⟩
    · rw [e1]; simpa using h2
    · rw [e1]; simpa using h3
  | case6 i v rest cfg h1 h2 h3 h4 =>
    intro j p r he
    simp [parseOpts, h1, h2, h3, h4] at he
    obtain ⟨rfl, rfl, rfl⟩ := he
    simp [h1]
  | case7 i v rest cfg h1 h2 h3 h4 ih =>
    intro j p r he
    simp [parseOpts, h1, h2, h3, h4] at he
    rcases he with he | he
    · obtain ⟨rfl, rfl, rfl⟩ := he
      simp [h1]
    · obtain ⟨k1, k2, k3, k4⟩ := ih j p r he
      have e1 : j - i = (j - (i + 2)) + 2 := by omega
      refine ⟨by omega, ?_, ?_, k4⟩
      · rw [e1]; simpa using k2
      · rw [e1]; simpa using k3
  | case8 i v rest cfg h1 h3 h4 ih =>
    intro j p r he
    simp [parseOpts, h1, h3, h4] at he
    obtain ⟨k1, k2, k3, k4⟩ := ih j p r he
    have e1 : j - i = (j - (i + 2)) + 2 := by omega
    refine ⟨by omega, ?_, ?_, k4⟩
    · rw [e1]; simpa using k2
    · rw [e1]; simpa using k3
  | case9 i v rest cfg h1 h2 h3 ih =>
    intro j p r he
    simp only [parseOpts, h1, h2, h3, if_true, if_false] at he
    obtain ⟨k1, k2, k3, k4⟩ := ih j p r he
    have e1 : j - i = (j - (i + 1)) + 1 := by omega
    refine ⟨by omega, ?_, ?_, k4⟩
    · rw [e1]; simpa using k2
    · rw [e1]; simpa using k3
  | case10 i a v rest cfg h1 h2 h3 h4 ih =>
    intro j p r he
    simp only [parseOpts, h1, h2, h3, h4, if_false] at he
    obtain ⟨k1, k2, k3, k4⟩ := ih j p r he
    have e1 : j - i = (j - (i + 1)) + 1 := by omega
    refine ⟨by omega, ?_, ?_, k4⟩
    · rw [e1]; simpa using k2
    · rw [e1]; simpa using k3

theorem parseOpts_none_iff (w : World) (i : Nat) (l : List CStr) (cfg : RunConfig) :
    (parseOpts w i l cfg).2 = none ↔
      ∃ j p r, Ev.mkdir j p r ∈ (parseOpts w i l cfg).1 ∧ r ≠ 0 := by
  induction i, l, cfg using parseOpts.induct w with
  | case1 => simp [parseOpts]
  | case2 => simp [parseOpts]
  | case3 x a cfg h => simp [parseOpts, h]
  | case4 i v rest cfg ih => simpa only [parseOpts, if_true] using ih
  | case5 i v rest cfg h ih => simpa only [parseOpts, h, if_true, if_false] using ih
  | case6 i v rest cfg h1 h2 h3 h4 =>
    rw [parseOpts_output_fail w i v rest cfg h1 h2]
    simp only [true_iff]
    exact ⟨i, v, w.mkdir_ret i, by simp, h2⟩
  | case7 i v rest cfg h1 h2 h3 h4 ih =>
    rw [parseOpts_output_created w i v rest cfg h1 h2]
    simp only
    rw [ih]
    constructor
    · rintro ⟨j, p, r, hm, hr⟩
      exact ⟨j, p, r, by simp [hm], hr⟩
    · rintro ⟨j, p, r, hm, hr⟩
      simp only [List.mem_cons] at hm
      rcases hm with hm | hm | hm
      · cases hm
      · cases hm
        exact absurd hr h2
      · exact ⟨j, p, r, hm, hr⟩
  | case8 i v rest cfg h1 h3 h4 ih =>
    rw [parseOpts_output_exists w i v rest cfg h1]
    simp only
    rw [ih]
    constructor
    · rintro ⟨j, p, r, hm, hr⟩
      exact ⟨j, p, r, by simp [hm], hr⟩
    · rintro ⟨j, p, r, hm, hr⟩
      simp only [List.mem_cons] at hm
      rcases hm with hm | hm
      · cases hm
      · exact ⟨j, p, r, hm, hr⟩
  | case9 i v rest cfg h1 h2 h3 ih => simpa only [parseOpts, h1, h2, h3, if_true, if_false] using ih
  | case10 i a v rest cfg h1 h2 h3 h4 ih =>
    simpa only [parseOpts, h1, h2, h3, h4, if_false] using ih

theorem parseOpts_no_output (w : World) (i : Nat) (l : List CStr) (cfg : RunConfig)
    (h : opt_output ∉ l) :
    ∃ cfg2, parseOpts w i l cfg = ([], some cfg2) ∧ cfg2.output_dir = cfg.output_dir := by
  induction i, l, cfg using parseOpts.induct w with
  | case1 x cfg => exact ⟨cfg, by simp [parseOpts]⟩
  | case2 x cfg => exact ⟨{ cfg with save_txt := true }, by simp [parseOpts]⟩
  | case3 x a cfg h1 => exact ⟨cfg, by simp [parseOpts, h1]⟩
  | case4 i v rest cfg ih =>
    obtain ⟨c, hc, ho⟩ := ih (fun hm => h (by simp [hm]))
    exact ⟨c, by simp only [parseOpts, if_true]; exact hc, ho⟩
  | case5 i v rest cfg h1 ih =>
    obtain ⟨c, hc, ho⟩ := ih (fun hm => h (by simp [hm]))
    exact ⟨c, by simp only [parseOpts, h1, if_true, if_false]; exact hc, ho⟩
  | case6 i v rest cfg h1 h2 h3 h4 => exact absurd (List.mem_cons_self _ _) h
  | case7 i v rest cfg h1 h2 h3 h4 ih => exact absurd (List.mem_cons_self _ _) h
  | case8 i v rest cfg h1 h3 h4 ih => exact absurd (List.mem_cons_self _ _) h
  | case9 i v rest cfg h1 h2 h3 ih =>
    obtain ⟨c, hc, ho⟩ := ih (fun hm => h (List.mem_cons_of_mem _ hm))
    exact ⟨c, by simp only [parseOpts, h1, h2, h3, if_true, if_false]; exact hc, ho⟩
  | case10 i a v rest cfg h1 h2 h3 h4 ih =>
    obtain ⟨c, hc, ho⟩ := ih (fun hm => h (List.mem_cons_of_mem _ hm))
    exact ⟨c, by simp only [parseOpts, h1, h2, h3, h4, if_false]; exact hc, ho⟩

/-! ## Shape of a run -/

theorem main_cases (argv : List CStr) (w : World) :
    (argv.length < 3 ∧ main argv w = { status := -1, trace := [Ev.usage] }) ∨
    (∃ tr, parseOpts w 3 (argv.drop 3) RunConfig.initial = (tr, none) ∧
      main argv w = { status := -1, trace := tr }) ∨
    (∃ tr cfg, parseOpts w 3 (argv.drop 3) RunConfig.initial = (tr, some cfg) ∧
      w.init_ret ≠ 0 ∧
      main argv w =
        { status := w.init_ret,
          trace := tr ++ [Ev.init_post_process,
            Ev.init_yolo11_model (argv.getD 1 []) w.init_ret, Ev.init_failed w.init_ret] }) ∨
    (∃ tr cfg, parseOpts w 3 (argv.drop 3) RunConfig.initial = (tr, some cfg) ∧
      w.init_ret = 0 ∧ w.dir_opens = false ∧
      main argv w =
        { status := 0,
          trace := tr ++ [Ev.init_post_process,
            Ev.init_yolo11_model (argv.getD 1 []) w.init_ret,
            Ev.opendir (argv.getD 2 []) false, Ev.opendir_failed (argv.getD 2 [])] ++
            teardown w }) ∨
    (∃ tr cfg, parseOpts w 3 (argv.drop 3) RunConfig.initial = (tr, some cfg) ∧
      w.init_ret = 0 ∧ w.dir_opens = true ∧
      main argv w =
        { status := 0,
          trace := tr ++ [Ev.init_post_process,
            Ev.init_yolo11_model (argv.getD 1 []) w.init_ret,
            Ev.opendir (argv.getD 2 []) true] ++
            batch w cfg (argv.getD 2 []) ++ teardown w }) := by
  by_cases h3 : argv.length < 3
  · left
    exact ⟨h3, by simp [main, h3]⟩
  · right
    rcases hp : parseOpts w 3 (argv.drop 3) RunConfig.initial with ⟨tr, _ | cfg⟩
    · left
      exact ⟨tr, rfl, by simp [main, h3, hp]⟩
    · right
      by_cases hi : w.init_ret = 0
      · right
        cases hd : w.dir_opens
        · left
          exact ⟨tr, cfg, rfl, hi, rfl, by simp [main, h3, hp, hi, hd]⟩
        · right
          exact ⟨tr, cfg, rfl, hi, rfl, by simp [main, h3, hp, hi, hd]⟩
      · left
        exact ⟨tr, cfg, rfl, hi, by simp [main, h3, hp, hi]⟩

theorem parse_trace_of_eq (w : World) (i : Nat) (l : List CStr) (cfg : RunConfig)
    (tr : List Ev) (r : Option RunConfig) (h : parseOpts w i l cfg = (tr, r)) :
    ∀ e ∈ tr, e.is_option = true := by
  have := parseOpts_trace_option w i l cfg
  rw [h] at this
  exact this

theorem teardown_mem (w : World) (e : Ev) (h : e ∈ teardown w) :
    e = Ev.deinit_post_process ∨ e = Ev.release_yolo11_model w.release_ret ∨
      e = Ev.release_failed w.release_ret := by
  simp only [teardown, List.mem_cons] at h
  rcases h with h | h | h
  · exact Or.inl h
  · exact Or.inr (Or.inl h)
  · split at h <;> simp at h
    exact Or.inr (Or.inr h)

theorem main_of_opened (argv : List CStr) (w : World) (f : CStr)
    (h : Ev.opendir f true ∈ (main argv w).trace) :
    ∃ tr cfg, parseOpts w 3 (argv.drop 3) RunConfig.initial = (tr, some cfg) ∧
      main argv w =
        { status := 0,
          trace := tr ++ [Ev.init_post_process,
            Ev.init_yolo11_model (argv.getD 1 []) w.init_ret,
            Ev.opendir (argv.getD 2 []) true] ++
            batch w cfg (argv.getD 2 []) ++ teardown w } := by
  rcases main_cases argv w with ⟨_, hm⟩ | ⟨tr, hp, hm⟩ | ⟨tr, cfg, hp, _, hm⟩ |
    ⟨tr, cfg, hp, _, _, hm⟩ | ⟨tr, cfg, hp, _, _, hm⟩
  · rw [hm] at h; simp at h
  · rw [hm] at h
    have := parse_trace_of_eq w _ _ _ tr _ hp _ h
    simp [Ev.is_option] at this
  · rw [hm] at h
    simp only [List.mem_append, List.mem_cons, List.mem_singleton, List.not_mem_nil,
      or_false] at h
    rcases h with h | h | h | h
    · have := parse_trace_of_eq w _ _ _ tr _ hp _ h
      simp [Ev.is_option] at this
    · cases h
    · cases h
    · cases h
  · rw [hm] at h
    simp only [List.mem_append, List.mem_cons, List.mem_singleton, List.not_mem_nil,
      or_false] at h
    rcases h with (h | h | h | h | h) | h
    · have := parse_trace_of_eq w _ _ _ tr _ hp _ h
      simp [Ev.is_option] at this
    · cases h
    · cases h
    · cases h
    · cases h
    · rcases teardown_mem w _ h with h | h | h <;> cases h
  · exact ⟨tr, cfg, hp, hm⟩

theorem filter_nil_of_forall {α : Type} (p : α → Bool) (l : List α)
    (h : ∀ e ∈ l, p e = false) : l.filter p = [] := by
  induction l with
  | nil => rfl
  | cons x xs ih =>
    have hx : p x = false := h x (List.mem_cons_self x xs)
    rw [List.filter_cons, hx]
    exact ih (fun e he => h e (List.mem_cons_of_mem x he))

theorem option_not_report (e : Ev) (h : e.is_option = true) : e.is_report = false := by
  cases e <;> simp_all [Ev.is_option, Ev.is_report]

theorem loop_not_report (e : Ev) (h : e.is_loop = true) : e.is_report = false := by
  cases e <;> simp_all [Ev.is_loop, Ev.is_render, Ev.is_report]

theorem teardown_filter_report (w : World) : (teardown w).filter Ev.is_report = [] :=
  filter_nil_of_forall _ _ (fun e he => by
    rcases teardown_mem w e he with h | h | h <;> subst h <;> rfl)

theorem batch_filter_report (w : World) (cfg : RunConfig) (image_folder : CStr) :
    (batch w cfg image_folder).filter Ev.is_report =
      report
        { total_inference_time :=
            (w.pass2.filter (is_inferred image_folder)).foldl
              (fun acc eo => fl64 (acc + inference_time eo.2)) 0,
          image_count := (w.pass2.filter (is_inferred image_folder)).length } := by
  have hc : (countLoop image_folder 0 w.pass1).2.filter Ev.is_report = [] :=
    filter_nil_of_forall _ _ (fun e he => by
      rw [countLoop_trace image_folder w.pass1 0 e he]; rfl)
  have hl : ∀ t st, (processLoop w.coco_cls_to_name cfg image_folder t st w.pass2).2.filter
      Ev.is_report = [] := fun t st =>
    filter_nil_of_forall _ _ (fun e he =>
      loop_not_report e (processLoop_trace_loop _ cfg image_folder t w.pass2 st e he))
  have hr : ∀ st, (report st).filter Ev.is_report = report st := by
    intro st
    simp only [report]
    split <;> simp [Ev.is_report]
  simp only [batch, List.filter_append, List.filter_cons, hc, hl, hr, processLoop_stats,
    Ev.is_report]
  simp

theorem option_not_loop (e : Ev) (h : e.is_option = true) : e.is_loop = false := by
  cases e <;> simp_all [Ev.is_option, Ev.is_loop, Ev.is_render]

theorem teardown_filterMap {β : Type} (g : Ev → Option β)
    (hg : ∀ e : Ev, e.is_loop = false → g e = none) (w : World) :
    (teardown w).filterMap g = [] :=
  filterMap_nil_of_forall g _ (fun e he => by
    rcases teardown_mem w e he with h | h | h <;> subst h <;> exact hg _ rfl)

theorem report_filterMap {β : Type} (g : Ev → Option β)
    (hg : ∀ e : Ev, e.is_loop = false → g e = none) (st : BatchStats) :
    (report st).filterMap g = [] := by
  simp only [report]
  split
  · simp [hg (Ev.summary _ _) rfl]
  · simp [hg Ev.no_valid_images rfl]

theorem batch_filterMap {β : Type} (g : Ev → Option β)
    (hg : ∀ e : Ev, e.is_loop = false → g e = none) (hp : g Ev.path_too_long = none)
    (w : World) (cfg : RunConfig) (image_folder : CStr) :
    (batch w cfg image_folder).filterMap g =
      (processLoop w.coco_cls_to_name cfg image_folder (countLoop image_folder 0 w.pass1).1
        { total_inference_time := 0, image_count := 0 } w.pass2).2.filterMap g := by
  have hc : (countLoop image_folder 0 w.pass1).2.filterMap g = [] :=
    filterMap_nil_of_forall g _ (fun e he => by
      rw [countLoop_trace image_folder w.pass1 0 e he]; exact hp)
  simp only [batch, List.filterMap_append, List.filterMap_cons, hc, report_filterMap g hg,
    hg Ev.rewinddir rfl, hg Ev.closedir rfl, List.nil_append, List.append_nil]

theorem main_filterMap {β : Type} (g : Ev → Option β)
    (hg : ∀ e : Ev, e.is_loop = false → g e = none) (hp : g Ev.path_too_long = none)
    (argv : List CStr) (w : World) :
    (main argv w).trace.filterMap g = [] ∨
    ∃ tr cfg, parseOpts w 3 (argv.drop 3) RunConfig.initial = (tr, some cfg) ∧
      (main argv w).trace.filterMap g =
        (processLoop w.coco_cls_to_name cfg (argv.getD 2 [])
          (countLoop (argv.getD 2 []) 0 w.pass1).1
          { total_inference_time := 0, image_count := 0 } w.pass2).2.filterMap g := by
  have hopt : ∀ tr r, parseOpts w 3 (argv.drop 3) RunConfig.initial = (tr, r) →
      tr.filterMap g = [] := fun tr r h =>
    filterMap_nil_of_forall g _ (fun e he =>
      hg e (option_not_loop e (parse_trace_of_eq w _ _ _ tr r h e he)))
  rcases main_cases argv w with ⟨_, hm⟩ | ⟨tr, hpo, hm⟩ | ⟨tr, cfg, hpo, _, hm⟩ |
    ⟨tr, cfg, hpo, _, _, hm⟩ | ⟨tr, cfg, hpo, _, _, hm⟩
  · left
    rw [hm]
    simp [hg Ev.usage rfl]
  · left
    rw [hm]
    exact hopt tr _ hpo
  · left
    rw [hm]
    simp [List.filterMap_append, hopt tr _ hpo, hg Ev.init_post_process rfl,
      hg (Ev.init_yolo11_model _ _) rfl, hg (Ev.init_failed _) rfl]
  · left
    rw [hm]
    simp [List.filterMap_append, hopt tr _ hpo, hg Ev.init_post_process rfl,
      hg (Ev.init_yolo11_model _ _) rfl, hg (Ev.opendir _ _) rfl,
      hg (Ev.opendir_failed _) rfl, teardown_filterMap g hg]
  · right
    refine ⟨tr, cfg, hpo, ?_⟩
    rw [hm]
    simp [List.filterMap_append, hopt tr _ hpo, hg Ev.init_post_process rfl,
      hg (Ev.init_yolo11_model _ _) rfl, hg (Ev.opendir _ _) rfl,
      teardown_filterMap g hg, batch_filterMap g hg hp]

theorem read_path_of_not_loop (e : Ev) (h : e.is_loop = false) : e.read_path = none := by
  cases e <;> simp_all [Ev.is_loop, Ev.read_path]

theorem released_of_not_loop (e : Ev) (h : e.is_loop = false) : e.released = none := by
  cases e <;> simp_all [Ev.is_loop, Ev.released]

theorem written_of_not_loop (e : Ev) (h : e.is_loop = false) : e.written = none := by
  cases e <;> simp_all [Ev.is_loop, Ev.is_render, Ev.written]

theorem logged_of_not_loop (e : Ev) (h : e.is_loop = false) : e.logged = none := by
  cases e <;> simp_all [Ev.is_loop, Ev.is_render, Ev.logged]

theorem progress_count_of_not_loop (e : Ev) (h : e.is_loop = false) :
    e.progress_count = none := by
  cases e <;> simp_all [Ev.is_loop, Ev.progress_count]

theorem main_mem_loop (argv : List CStr) (w : World) (e : Ev)
    (he : e ∈ (main argv w).trace) (hl : e.is_loop = true) (hne : e ≠ Ev.path_too_long) :
    ∃ tr cfg, parseOpts w 3 (argv.drop 3) RunConfig.initial = (tr, some cfg) ∧
      e ∈ (processLoop w.coco_cls_to_name cfg (argv.getD 2 [])
        (countLoop (argv.getD 2 []) 0 w.pass1).1
        { total_inference_time := 0, image_count := 0 } w.pass2).2 := by
  have hopt : ∀ tr r, parseOpts w 3 (argv.drop 3) RunConfig.initial = (tr, r) → e ∉ tr :=
    fun tr r h hm => by
      have := option_not_loop e (parse_trace_of_eq w _ _ _ tr r h e hm)
      rw [hl] at this
      cases this
  have htd : e ∉ teardown w := fun hm => by
    rcases teardown_mem w e hm with h | h | h <;> subst h <;> cases hl
  rcases main_cases argv w with ⟨_, hm⟩ | ⟨tr, hpo, hm⟩ | ⟨tr, cfg, hpo, _, hm⟩ |
    ⟨tr, cfg, hpo, _, _, hm⟩ | ⟨tr, cfg, hpo, _, _, hm⟩
  · rw [hm] at he
    simp at he
    subst he
    cases hl
  · rw [hm] at he
    exact absurd he (hopt tr _ hpo)
  · rw [hm] at he
    simp only [List.mem_append, List.mem_cons, List.mem_singleton, List.not_mem_nil,
      or_false] at he
    rcases he with he | he | he | he
    · exact absurd he (hopt tr _ hpo)
    · subst he; cases hl
    · subst he; cases hl
    · subst he; cases hl
  · rw [hm] at he
    simp only [List.mem_append, List.mem_cons, List.mem_singleton, List.not_mem_nil,
      or_false] at he
    rcases he with (he | he | he | he | he) | he
    · exact absurd he (hopt tr _ hpo)
    · subst he; cases hl
    · subst he; cases hl
    · subst he; cases hl
    · subst he; cases hl
    · exact absurd he htd
  · refine ⟨tr, cfg, hpo, ?_⟩
    rw [hm] at he
    simp only [batch, List.mem_append, List.mem_cons, List.mem_singleton, List.not_mem_nil,
      or_false] at he
    rcases he with ((he | he | he | he) | (he | he | he) | he | he) | he
    · exact absurd he (hopt tr _ hpo)
    · subst he; cases hl
    · subst he; cases hl
    · subst he; cases hl
    · exact absurd (countLoop_trace _ _ _ e he) hne
    · subst he; cases hl
    · exact he
    · subst he; cases hl
    · simp only [report] at he
      split at he <;> simp at he <;> subst he <;> cases hl
    · exact absurd he htd

theorem main_filterMap_of_opened {β : Type} (g : Ev → Option β)
    (hg : ∀ e : Ev, e.is_loop = false → g e = none) (hp : g Ev.path_too_long = none)
    (argv : List CStr) (w : World) (f : CStr)
    (hopen : Ev.opendir f true ∈ (main argv w).trace) :
    ∃ tr cfg, parseOpts w 3 (argv.drop 3) RunConfig.initial = (tr, some cfg) ∧
      (main argv w).trace.filterMap g =
        (processLoop w.coco_cls_to_name cfg (argv.getD 2 [])
          (countLoop (argv.getD 2 []) 0 w.pass1).1
          { total_inference_time := 0, image_count := 0 } w.pass2).2.filterMap g := by
  obtain ⟨tr, cfg, hpo, hm⟩ := main_of_opened argv w f hopen
  have hopt : tr.filterMap g = [] :=
    filterMap_nil_of_forall g _ (fun e he =>
      hg e (option_not_loop e (parse_trace_of_eq w _ _ _ tr _ hpo e he)))
  refine ⟨tr, cfg, hpo, ?_⟩
  rw [hm]
  simp [List.filterMap_append, hopt, hg Ev.init_post_process rfl,
    hg (Ev.init_yolo11_model _ _) rfl, hg (Ev.opendir _ _) rfl,
    teardown_filterMap g hg, batch_filterMap g hg hp]

theorem processEntry_read (cls : Int → CStr) (cfg : RunConfig) (image_folder : CStr)
    (t : Nat) (st : BatchStats) (e : DirEnt) (o : Outcome) :
    (processEntry cls cfg image_folder t st e o).2.filterMap Ev.read_path =
      if is_selected image_folder e = true then [joined_path image_folder e] else [] := by
  have h := processLoop_read cls cfg image_folder t [(e, o)] st
  simp only [processLoop, List.append_nil, List.map_cons, List.map_nil, List.filter_cons,
    List.filter_nil] at h
  rw [h]
  split <;> rfl

theorem inferred_le_selected (image_folder : CStr) (l : List (DirEnt × Outcome)) :
    (l.filter (is_inferred image_folder)).length ≤
      ((l.map Prod.fst).filter (is_selected image_folder)).length := by
  induction l with
  | nil => simp
  | cons eo es ih =>
    simp only [List.map_cons, List.filter_cons]
    cases hs : is_selected image_folder eo.1
    · have hinf : is_inferred image_folder eo = false := by simp [is_inferred, hs]
      simpa [hinf] using ih
    · cases hinf : is_inferred image_folder eo
      · simp only [Bool.false_eq_true, if_false, if_true, List.length_cons]
        omega
      · simp only [if_true, List.length_cons]
        omega

theorem output_path_joined (d image_folder : CStr) (e : DirEnt) (h : '/' ∉ e.d_name)
    (hlen : d.length + 5 + e.d_name.length < 1024) :
    output_path d (joined_path image_folder e) = d ++ "/det_".toList ++ e.d_name := by
  simp only [output_path, input_filename_joined image_folder e h]
  apply snprintf_fst_of_lt
  simp only [List.length_append]
  have : "/det_".toList.length = 5 := by decide
  omega

theorem processLoop_no_render (cls : Int → CStr) (cfg : RunConfig) (image_folder : CStr)
    (t : Nat) (hnone : cfg.output_dir = none) (l : List (DirEnt × Outcome)) :
    ∀ st, ∀ e ∈ (processLoop cls cfg image_folder t st l).2, e.is_render = false := by
  induction l with
  | nil => intro st e he; simp [processLoop] at he
  | cons eo es ih =>
    intro st e he
    simp only [processLoop, List.mem_append] at he
    rcases he with he | he
    · rw [processEntry_eq, render_stage_none cls cfg _ eo.2 hnone] at he
      split at he
      · split at he
        · simp at he; rcases he with h | h <;> subst h <;> rfl
        · split at he
          · simp at he; rcases he with h | h | h | h | h <;> subst h <;> rfl
          · simp at he
            rcases he with h | h | h | h | h | h | h <;> subst h <;> rfl
      · split at he <;> simp at he
        subst he; rfl
    · exact ih _ e he

theorem batch_mem (w : World) (cfg : RunConfig) (image_folder : CStr) (e : Ev)
    (h : e ∈ batch w cfg image_folder) :
    e.is_loop = true ∨ e = Ev.rewinddir ∨ e = Ev.closedir ∨ e.is_report = true := by
  simp only [batch, List.mem_append, List.mem_cons] at h
  rcases h with (h | h | h) | h | h
  · left
    rw [countLoop_trace _ _ _ e h]
    rfl
  · exact Or.inr (Or.inl h)
  · exact Or.inl (processLoop_trace_loop _ _ _ _ _ _ e h)
  · exact Or.inr (Or.inr (Or.inl h))
  · right; right; right
    simp only [report] at h
    split at h <;> simp at h <;> subst h <;> rfl

theorem main_mem_option (argv : List CStr) (w : World) (e : Ev)
    (he : e ∈ (main argv w).trace) (ho : e.is_option = true) :
    3 ≤ argv.length ∧ e ∈ (parseOpts w 3 (argv.drop 3) RunConfig.initial).1 := by
  have hb : ∀ cfg, e ∉ batch w cfg (argv.getD 2 []) := fun cfg hm => by
    rcases batch_mem w cfg _ e hm with h | h | h | h
    · rw [option_not_loop e ho] at h; cases h
    · subst h; cases ho
    · subst h; cases ho
    · rw [option_not_report e ho] at h; cases h
  have htd : e ∉ teardown w := fun hm => by
    rcases teardown_mem w e hm with h | h | h <;> subst h <;> cases ho
  have h3 : 3 ≤ argv.length := by
    by_contra hlt
    have : main argv w = { status := -1, trace := [Ev.usage] } := by
      simp [main, Nat.lt_of_not_le hlt]
    rw [this] at he
    simp at he
    subst he
    cases ho
  refine ⟨h3, ?_⟩
  rcases main_cases argv w with ⟨hlt, _⟩ | ⟨tr, hpo, hm⟩ | ⟨tr, cfg, hpo, _, hm⟩ |
    ⟨tr, cfg, hpo, _, _, hm⟩ | ⟨tr, cfg, hpo, _, _, hm⟩
  · omega
  · rw [hm] at he
    rw [hpo]
    exact he
  · rw [hm] at he
    rw [hpo]
    simp only [List.mem_append, List.mem_cons, List.mem_singleton, List.not_mem_nil,
      or_false] at he
    rcases he with he | he | he | he
    · exact he
    · subst he; cases ho
    · subst he; cases ho
    · subst he; cases ho
  · rw [hm] at he
    rw [hpo]
    simp only [List.mem_append, List.mem_cons, List.mem_singleton, List.not_mem_nil,
      or_false] at he
    rcases he with (he | he | he | he | he) | he
    · exact he
    · subst he; cases ho
    · subst he; cases ho
    · subst he; cases ho
    · subst he; cases ho
    · exact absurd he htd
  · rw [hm] at he
    rw [hpo]
    simp only [List.mem_append, List.mem_cons, List.mem_singleton, List.not_mem_nil,
      or_false] at he
    rcases he with ((he | he | he | he) | he) | he
    · exact he
    · subst he; cases ho
    · subst he; cases ho
    · subst he; cases ho
    · exact absurd he (hb cfg)
    · exact absurd he htd

theorem main_mem_init (argv : List CStr) (w : World) (m : CStr) (r : Int)
    (he : Ev.init_yolo11_model m r ∈ (main argv w).trace) :
    r = w.init_ret ∧ (parseOpts w 3 (argv.drop 3) RunConfig.initial).2 ≠ none ∧
      (main argv w).status = w.init_ret := by
  have hopt : ∀ tr r2, parseOpts w 3 (argv.drop 3) RunConfig.initial = (tr, r2) →
      Ev.init_yolo11_model m r ∉ tr := fun tr r2 h hm => by
    have := parse_trace_of_eq w _ _ _ tr r2 h _ hm
    cases this
  have hb : ∀ cfg, Ev.init_yolo11_model m r ∉ batch w cfg (argv.getD 2 []) := fun cfg hm => by
    rcases batch_mem w cfg _ _ hm with h | h | h | h <;> cases h
  have htd : Ev.init_yolo11_model m r ∉ teardown w := fun hm => by
    rcases teardown_mem w _ hm with h | h | h <;> cases h
  rcases main_cases argv w with ⟨hlt, hm⟩ | ⟨tr, hpo, hm⟩ | ⟨tr, cfg, hpo, hi, hm⟩ |
    ⟨tr, cfg, hpo, hi, _, hm⟩ | ⟨tr, cfg, hpo, hi, _, hm⟩
  · rw [hm] at he
    simp at he
  · rw [hm] at he
    exact absurd he (hopt tr _ hpo)
  · rw [hm] at he
    rw [hm, hpo]
    simp only [List.mem_append, List.mem_cons, List.mem_singleton, List.not_mem_nil,
      or_false] at he
    rcases he with he | he | he | he
    · exact absurd he (hopt tr _ hpo)
    · cases he
    · cases he
      exact ⟨rfl, by simp, rfl⟩
    · cases he
  · rw [hm] at he
    rw [hm, hpo]
    simp only [List.mem_append, List.mem_cons, List.mem_singleton, List.not_mem_nil,
      or_false] at he
    rcases he with (he | he | he | he | he) | he
    · exact absurd he (hopt tr _ hpo)
    · cases he
    · cases he
      exact ⟨rfl, by simp, hi.symm⟩
    · cases he
    · cases he
    · exact absurd he htd
  · rw [hm] at he
    rw [hm, hpo]
    simp only [List.mem_append, List.mem_cons, List.mem_singleton, List.not_mem_nil,
      or_false] at he
    rcases he with ((he | he | he | he) | he) | he
    · exact absurd he (hopt tr _ hpo)
    · cases he
    · cases he
      exact ⟨rfl, by simp, hi.symm⟩
    · cases he
    · exact absurd he (hb cfg)
    · exact absurd he htd

theorem main_of_parse_none (argv : List CStr) (w : World) (h3 : 3 ≤ argv.length)
    (hn : (parseOpts w 3 (argv.drop 3) RunConfig.initial).2 = none) :
    main argv w =
      { status := -1, trace := (parseOpts w 3 (argv.drop 3) RunConfig.initial).1 } := by
  rcases hp : parseOpts w 3 (argv.drop 3) RunConfig.initial with ⟨tr, r⟩
  rw [hp] at hn
  simp only at hn
  subst hn
  simp [main, Nat.not_lt.mpr h3, hp]

theorem main_mkdir_failed (argv : List CStr) (w : World) (i : Nat) (p : CStr) (r : Int)
    (he : Ev.mkdir i p r ∈ (main argv w).trace) (hr : r ≠ 0) :
    main argv w =
      { status := -1, trace := (parseOpts w 3 (argv.drop 3) RunConfig.initial).1 } := by
  obtain ⟨h3, hmem⟩ := main_mem_option argv w _ he rfl
  exact main_of_parse_none argv w h3
    ((parseOpts_none_iff w 3 (argv.drop 3) RunConfig.initial).mpr ⟨i, p, r, hmem, hr⟩)

/-! ## Text of the record file -/

theorem digitChar_ne_newline : ∀ k, k < 10 → Nat.digitChar k ≠ '\n' := by
  decide

theorem toDigitsCore_no_newline (fuel : Nat) :
    ∀ n acc, '\n' ∉ acc → '\n' ∉ Nat.toDigitsCore 10 fuel n acc := by
  induction fuel with
  | zero => intro n acc h; simpa [Nat.toDigitsCore] using h
  | succ k ih =>
    intro n acc h
    have hcons : '\n' ∉ Nat.digitChar (n % 10) :: acc := by
      simp only [List.mem_cons, not_or]
      exact ⟨fun e => digitChar_ne_newline _ (Nat.mod_lt n (by decide)) e.symm, h⟩
    simp only [Nat.toDigitsCore]
    split
    · exact hcons
    · exact ih _ _ hcons

theorem fmt_u_no_newline (n : Nat) : '\n' ∉ fmt_u n := by
  simp only [fmt_u, Nat.toDigits]
  exact toDigitsCore_no_newline _ _ _ (by simp)

theorem fmt_d_no_newline (i : Int) : '\n' ∉ fmt_d i := by
  simp only [fmt_d]
  split
  · simp only [List.mem_cons, not_or]
    exact ⟨by decide, fmt_u_no_newline _⟩
  · exact fmt_u_no_newline _

theorem pad3_no_newline (n : Nat) : '\n' ∉ pad3 n := by
  simp only [pad3, List.mem_append, not_or]
  refine ⟨?_, fmt_u_no_newline _⟩
  intro h
  have := List.eq_of_mem_replicate h
  revert this
  decide

theorem fmt_f3_no_newline (q : ℚ) : '\n' ∉ fmt_f3 q := by
  simp only [fmt_f3, List.mem_append, List.mem_cons, not_or]
  refine ⟨⟨?_, fmt_u_no_newline _⟩, by decide, pad3_no_newline _⟩
  split <;> simp

theorem record_row_no_newline (cls : Int → CStr) (file_path : CStr) (i : Nat)
    (d : object_detect_result) (hp : '\n' ∉ file_path) (hc : '\n' ∉ cls d.cls_id) :
    '\n' ∉ record_row cls file_path i d := by
  simp [record_row, hp, hc, fmt_d_no_newline, fmt_f3_no_newline]

theorem record_rows_eq (cls : Int → CStr) (file_path : CStr)
    (ds : List object_detect_result) :
    ∀ i, record_rows cls file_path i ds =
      ((ds.enumFrom i).map (fun x => record_row cls file_path x.1 x.2)).flatMap
        (fun l => l ++ ['\n']) := by
  induction ds with
  | nil => intro i; rfl
  | cons d ds ih =>
    intro i
    simp [record_rows, ih (i + 1), List.enumFrom_cons]

theorem count_newline_lines (lines : List CStr) (h : ∀ l ∈ lines, '\n' ∉ l) :
    (lines.flatMap (fun l => l ++ ['\n'])).count '\n' = lines.length := by
  induction lines with
  | nil => rfl
  | cons l ls ih =>
    have hl : l.count '\n' = 0 := List.count_eq_zero.mpr (h l (List.mem_cons_self l ls))
    simp only [List.flatMap_cons, List.count_append, hl, List.length_cons,
      ih (fun x hx => h x (List.mem_cons_of_mem l hx))]
    simp
    omega

theorem fmt_f3_sample : fmt_f3 (87 / 100) = "0.870".toList := by
  have e : |(87 / 100 : ℚ)| * 1000 = ((870 : ℕ) : ℚ) := by norm_num [abs_of_nonneg]
  have h : round_half_even (|(87 / 100 : ℚ)| * 1000) = 870 := by
    rw [e]
    simp [round_half_even]
  have h2 : ¬ ((87 / 100 : ℚ) < 0) := by norm_num
  simp only [fmt_f3, h, h2, if_false]
  decide

theorem fmt_f3_float_sample : fmt_f3 (14596178 / 16777216) = "0.870".toList := by
  have hfl : ⌊|(14596178 / 16777216 : ℚ)| * 1000⌋ = 870 := by
    rw [Int.floor_eq_iff]
    norm_num [abs_of_nonneg]
  have hnat : Int.toNat 870 = 870 := rfl
  have h : round_half_even (|(14596178 / 16777216 : ℚ)| * 1000) = 870 := by
    simp only [round_half_even, hfl, hnat]
    norm_num [abs_of_nonneg]
  have h2 : ¬ ((14596178 / 16777216 : ℚ) < 0) := by norm_num
  simp only [fmt_f3, h, h2, if_false]
  decide

theorem txt_path_of_extension (d image_folder stem ext : CStr) (e : DirEnt)
    (hname : e.d_name = stem ++ '.' :: ext) (hslash : '/' ∉ e.d_name) (hext : '.' ∉ ext)
    (hlen : d.length + 5 + e.d_name.length < 1024)
    (hroom : d.length + 5 + stem.length + 5 ≤ 1024) :
    txt_path d (joined_path image_folder e) =
      some (d ++ "/det_".toList ++ stem ++ ".txt".toList) := by
  have h5 : "/det_".toList.length = 5 := by decide
  have hbuf : (snprintf 1024 (d ++ "/det_".toList ++ e.d_name)).1 =
      (d ++ "/det_".toList ++ stem) ++ '.' :: ext := by
    rw [snprintf_fst_of_lt _ (by simp only [List.length_append]; omega), hname]
    simp
  simp only [txt_path, input_filename_joined image_folder e hslash, hbuf,
    strrchr_append_cons _ ext '.' hext]
  have hl : (d ++ "/det_".toList ++ stem).length + 5 ≤ 1024 := by
    simp only [List.length_append]; omega
  simp only [hl, if_true, List.take_left']

theorem release_only_after_inference (argv : List CStr) (w : World)
    (hopen : Ev.opendir (argv.getD 2 []) true ∈ (main argv w).trace) :
    (main argv w).trace.filterMap Ev.released =
      (w.pass2.filter (is_inferred (argv.getD 2 []))).map
        (fun eo => joined_path (argv.getD 2 []) eo.1) := by
  obtain ⟨tr, cfg, _, hm⟩ :=
    main_filterMap_of_opened Ev.released released_of_not_loop rfl argv w _ hopen
  rw [hm, processLoop_released]

/-! ## Rounding to `double` -/

theorem round_half_even_natCast (n : Nat) : round_half_even (n : ℚ) = n := by
  simp [round_half_even]

theorem round_half_even_error (x : ℚ) (hx : 0 ≤ x) :
    |(round_half_even x : ℚ) - x| ≤ 1 / 2 ∧
      (|(round_half_even x : ℚ) - x| = 1 / 2 → round_half_even x % 2 = 0) := by
  have hfl : 0 ≤ ⌊x⌋ := Int.floor_nonneg.mpr hx
  have hcast : ((⌊x⌋.toNat : Nat) : ℚ) = (⌊x⌋ : ℚ) := by
    have : ((⌊x⌋.toNat : Nat) : ℤ) = ⌊x⌋ := Int.toNat_of_nonneg hfl
    exact_mod_cast this
  have h1 : (⌊x⌋ : ℚ) ≤ x := Int.floor_le x
  have h2 : x < (⌊x⌋ : ℚ) + 1 := Int.lt_floor_add_one x
  simp only [round_half_even]
  rw [hcast]
  by_cases ha : x - (⌊x⌋ : ℚ) < 1 / 2
  · simp only [ha, if_true, hcast]
    constructor
    · rw [abs_le]; constructor <;> linarith
    · intro h
      exfalso
      rw [abs_sub_comm, abs_of_nonneg (by linarith)] at h
      linarith
  · by_cases hb : 1 / 2 < x - (⌊x⌋ : ℚ)
    · simp only [ha, hb, if_true, if_false, Nat.cast_add, Nat.cast_one, hcast]
      constructor
      · rw [abs_le]; constructor <;> linarith
      · intro h
        exfalso
        rw [abs_of_nonneg (by linarith)] at h
        linarith
    · by_cases hc : ⌊x⌋.toNat % 2 = 0
      · simp only [ha, hb, hc, if_true, if_false, hcast]
        constructor
        · rw [abs_le]; constructor <;> linarith
        · intro _; trivial
      · simp only [ha, hb, hc, if_false, Nat.cast_add, Nat.cast_one, hcast]
        constructor
        · rw [abs_le]; constructor <;> linarith
        · intro _
          omega

theorem log2_eq (r : ℚ) (e : ℤ) (h1 : (2 : ℚ) ^ e ≤ r) (h2 : r < (2 : ℚ) ^ (e + 1)) :
    Int.log 2 r = e := by
  have hr : 0 < r := lt_of_lt_of_le (by positivity) h1
  have a : e ≤ Int.log 2 r := (Int.zpow_le_iff_le_log (by norm_num) hr).mp (by exact_mod_cast h1)
  have b : Int.log 2 r < e + 1 := (Int.lt_zpow_iff_log_lt (by norm_num) hr).mp (by exact_mod_cast h2)
  omega

theorem fl64_zero : fl64 0 = 0 := by simp [fl64]

theorem scaled_round_error (a P : ℚ) (ha : 0 ≤ a) (hP : 0 < P) :
    abs ((round_half_even (a / P) : ℚ) * P - a) ≤ P / 2 := by
  have hr := (round_half_even_error (a / P) (by positivity)).1
  have e : (round_half_even (a / P) : ℚ) * P - a =
      ((round_half_even (a / P) : ℚ) - a / P) * P := by
    field_simp
  rw [e, abs_mul, abs_of_pos hP]
  calc _ ≤ 1 / 2 * P := mul_le_mul_of_nonneg_right hr hP.le
    _ = P / 2 := by ring

theorem fl64_error_ulp (q : ℚ) (hq : q ≠ 0) :
    |fl64 q - q| ≤ (2 : ℚ) ^ (max (Int.log 2 |q| - 52) (-1074)) / 2 := by
  have hP : (0 : ℚ) < (2 : ℚ) ^ (max (Int.log 2 |q| - 52) (-1074)) := by positivity
  have key := scaled_round_error |q| _ (abs_nonneg q) hP
  simp only [fl64, hq, if_false]
  by_cases hneg : q < 0
  · simp only [hneg, if_true]
    have e : -(round_half_even (|q| / (2 : ℚ) ^ (max (Int.log 2 |q| - 52) (-1074))) : ℚ) *
        (2 : ℚ) ^ (max (Int.log 2 |q| - 52) (-1074)) - q =
        -((round_half_even (|q| / (2 : ℚ) ^ (max (Int.log 2 |q| - 52) (-1074))) : ℚ) *
        (2 : ℚ) ^ (max (Int.log 2 |q| - 52) (-1074)) - |q|) := by
      rw [abs_of_neg hneg]
      ring
    rw [e, abs_neg]
    exact key
  · simp only [hneg, if_false]
    have e : (round_half_even (|q| / (2 : ℚ) ^ (max (Int.log 2 |q| - 52) (-1074))) : ℚ) *
        (2 : ℚ) ^ (max (Int.log 2 |q| - 52) (-1074)) - q =
        (round_half_even (|q| / (2 : ℚ) ^ (max (Int.log 2 |q| - 52) (-1074))) : ℚ) *
        (2 : ℚ) ^ (max (Int.log 2 |q| - 52) (-1074)) - |q| := by
      rw [abs_of_nonneg (not_lt.mp hneg)]
    rw [e]
    exact key

theorem fl64_error_relative (q : ℚ) (hq : (2 : ℚ) ^ (-1022 : ℤ) ≤ |q|) :
    |fl64 q - q| ≤ |q| / 2 ^ 53 := by
  have hpos : 0 < |q| := lt_of_lt_of_le (by positivity) hq
  have hq0 : q ≠ 0 := abs_pos.mp hpos
  have hlog : (-1022 : ℤ) ≤ Int.log 2 |q| :=
    (Int.zpow_le_iff_le_log (by norm_num) hpos).mp (by exact_mod_cast hq)
  have hmax : max (Int.log 2 |q| - 52) (-1074) = Int.log 2 |q| - 52 := max_eq_left (by omega)
  have h := fl64_error_ulp q hq0
  rw [hmax] at h
  have hle : (2 : ℚ) ^ (Int.log 2 |q|) ≤ |q| := by
    have := Int.zpow_log_le_self (b := 2) (r := |q|) (by norm_num) hpos
    exact_mod_cast this
  calc |fl64 q - q| ≤ (2 : ℚ) ^ (Int.log 2 |q| - 52) / 2 := h
    _ = (2 : ℚ) ^ (Int.log 2 |q|) / 2 ^ 53 := by
        rw [zpow_sub₀ (by norm_num : (2 : ℚ) ≠ 0)]
        norm_num
        ring
    _ ≤ |q| / 2 ^ 53 := by gcongr

theorem fl64_eval (q : ℚ) (e : ℤ) (m : ℕ) (h1 : (2 : ℚ) ^ e ≤ q) (h2 : q < (2 : ℚ) ^ (e + 1))
    (he : -1022 ≤ e) (hm : |(m : ℚ) - q / (2 : ℚ) ^ (e - 52)| < 1 / 2) :
    fl64 q = (m : ℚ) * (2 : ℚ) ^ (e - 52) := by
  have hpos : 0 < q := lt_of_lt_of_le (by positivity) h1
  have habs : |q| = q := abs_of_pos hpos
  have hlog : Int.log 2 q = e := log2_eq q e h1 h2
  have hmax : max (e - 52) (-1074) = e - 52 := max_eq_left (by omega)
  have hx : 0 ≤ q / (2 : ℚ) ^ (e - 52) := by positivity
  have hr := (round_half_even_error _ hx).1
  have hnat : round_half_even (q / (2 : ℚ) ^ (e - 52)) = m := by
    have hlt : |(round_half_even (q / (2 : ℚ) ^ (e - 52)) : ℚ) - (m : ℚ)| < 1 := by
      have := abs_sub_le (round_half_even (q / (2 : ℚ) ^ (e - 52)) : ℚ)
        (q / (2 : ℚ) ^ (e - 52)) (m : ℚ)
      rw [abs_sub_comm (q / (2 : ℚ) ^ (e - 52)) (m : ℚ)] at this
      linarith
    have hz : |((round_half_even (q / (2 : ℚ) ^ (e - 52)) : ℤ) - (m : ℤ))| < 1 := by
      have : ((|((round_half_even (q / (2 : ℚ) ^ (e - 52)) : ℤ) - (m : ℤ))| : ℤ) : ℚ) < 1 := by
        push_cast
        exact hlt
      exact_mod_cast this
    have := abs_lt.mp hz
    omega
  simp only [fl64, hpos.ne', if_false, habs, hlog, hmax, not_lt.mpr hpos.le, hnat]

theorem fl64_four_thirds : fl64 (4 / 3) = 6004799503160661 / 4503599627370496 := by
  rw [fl64_eval (4 / 3) 0 6004799503160661 (by norm_num) (by norm_num) (by norm_num)
    (by rw [abs_lt]; constructor <;> norm_num)]
  norm_num

theorem fl64_exact (q : ℚ) (e : ℤ) (m : ℕ) (h1 : (2 : ℚ) ^ e ≤ q) (h2 : q < (2 : ℚ) ^ (e + 1))
    (he : -1022 ≤ e) (hm : (m : ℚ) = q / (2 : ℚ) ^ (e - 52)) : fl64 q = q := by
  rw [fl64_eval q e m h1 h2 he (by rw [hm]; norm_num), hm]
  field_simp


theorem fl64_natCast (n : ℕ) (h : n < 2 ^ 53) : fl64 (n : ℚ) = n := by
  rcases Nat.eq_zero_or_pos n with rfl | hpos
  · simp [fl64_zero]
  · have hn : n ≠ 0 := Nat.pos_iff_ne_zero.mp hpos
    have hlog : Nat.log 2 n < 53 := Nat.log_lt_of_lt_pow hn h
    have h1 : (2 : ℚ) ^ ((Nat.log 2 n : ℕ) : ℤ) ≤ (n : ℚ) := by
      rw [zpow_natCast]
      exact_mod_cast Nat.pow_log_le_self 2 hn
    have h2 : (n : ℚ) < (2 : ℚ) ^ (((Nat.log 2 n : ℕ) : ℤ) + 1) := by
      have : (((Nat.log 2 n : ℕ) : ℤ) + 1) = ((Nat.log 2 n + 1 : ℕ) : ℤ) := by push_cast; ring
      rw [this, zpow_natCast]
      exact_mod_cast Nat.lt_pow_succ_log_self (by norm_num : 1 < 2) n
    have he : ((Nat.log 2 n : ℕ) : ℤ) - 52 = -((52 - Nat.log 2 n : ℕ) : ℤ) := by omega
    refine fl64_exact (n : ℚ) (Nat.log 2 n : ℕ) (n * 2 ^ (52 - Nat.log 2 n)) h1 h2 (by omega) ?_
    rw [he, zpow_neg, zpow_natCast]
    push_cast
    field_simp

theorem fl64_representable (q : ℚ) :
    ∃ (m : ℕ) (p : ℤ), m ≤ 2 ^ 53 ∧ -1074 ≤ p ∧ |fl64 q| = (m : ℚ) * (2 : ℚ) ^ p := by
  by_cases hq : q = 0
  · exact ⟨0, 0, by norm_num, by norm_num, by simp [hq, fl64_zero]⟩
  · have hpos : 0 < |q| := abs_pos.mpr hq
    have hP : (0 : ℚ) < (2 : ℚ) ^ (max (Int.log 2 |q| - 52) (-1074)) := by positivity
    refine ⟨round_half_even (|q| / (2 : ℚ) ^ (max (Int.log 2 |q| - 52) (-1074))),
      max (Int.log 2 |q| - 52) (-1074), ?_, le_max_right _ _, ?_⟩
    · have hx : 0 ≤ |q| / (2 : ℚ) ^ (max (Int.log 2 |q| - 52) (-1074)) := by positivity
      have hr := (round_half_even_error _ hx).1
      have hlt : |q| < (2 : ℚ) ^ (Int.log 2 |q| + 1) := by
        have := Int.lt_zpow_succ_log_self (b := 2) (by norm_num) |q|
        exact_mod_cast this
      have hmono : (2 : ℚ) ^ (Int.log 2 |q| - 52) ≤
          (2 : ℚ) ^ (max (Int.log 2 |q| - 52) (-1074)) :=
        zpow_le_zpow_right₀ (by norm_num) (le_max_left _ _)
      have hxlt : |q| / (2 : ℚ) ^ (max (Int.log 2 |q| - 52) (-1074)) < 2 ^ 53 := by
        rw [div_lt_iff₀ hP]
        calc |q| < (2 : ℚ) ^ (Int.log 2 |q| + 1) := hlt
          _ = 2 ^ 53 * (2 : ℚ) ^ (Int.log 2 |q| - 52) := by
              rw [zpow_add₀ (by norm_num : (2 : ℚ) ≠ 0), zpow_sub₀ (by norm_num : (2 : ℚ) ≠ 0)]
              norm_num
              ring
          _ ≤ 2 ^ 53 * (2 : ℚ) ^ (max (Int.log 2 |q| - 52) (-1074)) := by gcongr
      have hm : (round_half_even (|q| / (2 : ℚ) ^ (max (Int.log 2 |q| - 52) (-1074))) : ℚ) <
          2 ^ 53 + 1 := by
        have := (abs_le.mp hr).2
        linarith
      have : round_half_even (|q| / (2 : ℚ) ^ (max (Int.log 2 |q| - 52) (-1074))) <
          2 ^ 53 + 1 := by exact_mod_cast hm
      omega
    · simp only [fl64, hq, if_false]
      rw [abs_mul, abs_of_pos hP]
      congr 1
      split
      · rw [abs_neg, abs_of_nonneg (Nat.cast_nonneg _)]
      · rw [abs_of_nonneg (Nat.cast_nonneg _)]

theorem main_report_of_opened (argv : List CStr) (w : World) (f : CStr)
    (hopen : Ev.opendir f true ∈ (main argv w).trace) :
    (main argv w).trace.filter Ev.is_report =
      report
        { total_inference_time :=
            (w.pass2.filter (is_inferred (argv.getD 2 []))).foldl
              (fun acc eo => fl64 (acc + inference_time eo.2)) 0,
          image_count := (w.pass2.filter (is_inferred (argv.getD 2 []))).length } := by
  obtain ⟨tr, cfg, hp, hm⟩ := main_of_opened argv w f hopen
  have htr : tr.filter Ev.is_report = [] :=
    filter_nil_of_forall _ _ (fun e he =>
      option_not_report e (parse_trace_of_eq w _ _ _ tr _ hp e he))
  rw [hm]
  simp only [List.filter_append, htr, batch_filter_report, teardown_filter_report,
    List.append_nil, List.nil_append]
  simp [List.filter_cons, Ev.is_report]

theorem fl64_one : fl64 1 = 1 :=
  fl64_exact 1 0 (2 ^ 52) (by norm_num) (by norm_num) (by norm_num) (by norm_num)

theorem fl64_two : fl64 2 = 2 :=
  fl64_exact 2 1 (2 ^ 52) (by norm_num) (by norm_num) (by norm_num) (by norm_num)

theorem fl64_three : fl64 3 = 3 :=
  fl64_exact 3 1 (3 * 2 ^ 51) (by norm_num) (by norm_num) (by norm_num) (by norm_num)

theorem fl64_four : fl64 4 = 4 :=
  fl64_exact 4 2 (2 ^ 52) (by norm_num) (by norm_num) (by norm_num) (by norm_num)

theorem fl64_half : fl64 (1 / 2) = 1 / 2 :=
  fl64_exact _ (-1) (2 ^ 52) (by norm_num) (by norm_num) (by norm_num) (by norm_num)

theorem fl64_five_halves : fl64 (5 / 2) = 5 / 2 :=
  fl64_exact _ 1 (5 * 2 ^ 50) (by norm_num) (by norm_num) (by norm_num) (by norm_num)

theorem fl64_half_billion : fl64 500000000 = 500000000 :=
  fl64_exact _ 28 (500000000 * 2 ^ 24) (by norm_num) (by norm_num) (by norm_num)
    (by norm_num)

set_option maxRecDepth 100000 in
theorem pad3_digits : ∀ k, k < 1000 →
    pad3 k = [Nat.digitChar (k / 100), Nat.digitChar (k / 10 % 10), Nat.digitChar (k % 10)] := by
  decide

theorem fmt_u_eq_toString (n : Nat) : fmt_u n = (toString n).toList := rfl

theorem fmt_d_eq_toString (i : Int) : fmt_d i = (toString i).toList := by
  cases i with
  | ofNat n =>
    simp [fmt_d, fmt_u]
    rfl
  | negSucc n =>
    simp [fmt_d, fmt_u, Int.negSucc_lt_zero]
    rfl

theorem fmt_f3_spec (q : ℚ) :
    ∃ m : ℕ, |(m : ℚ) - |q| * 1000| ≤ 1 / 2 ∧
      (|(m : ℚ) - |q| * 1000| = 1 / 2 → m % 2 = 0) ∧
      fmt_f3 q = (if q < 0 then "-".toList else []) ++ (toString (m / 1000)).toList ++
        ['.', Nat.digitChar (m / 100 % 10), Nat.digitChar (m / 10 % 10),
          Nat.digitChar (m % 10)] := by
  have hx : 0 ≤ |q| * 1000 := by positivity
  obtain ⟨h1, h2⟩ := round_half_even_error (|q| * 1000) hx
  refine ⟨round_half_even (|q| * 1000), h1, h2, ?_⟩
  have hlt : round_half_even (|q| * 1000) % 1000 < 1000 := Nat.mod_lt _ (by norm_num)
  have e1 : round_half_even (|q| * 1000) % 1000 / 100 =
      round_half_even (|q| * 1000) / 100 % 10 := by omega
  have e2 : round_half_even (|q| * 1000) % 1000 / 10 % 10 =
      round_half_even (|q| * 1000) / 10 % 10 := by omega
  have e3 : round_half_even (|q| * 1000) % 1000 % 10 =
      round_half_even (|q| * 1000) % 10 := by omega
  simp only [fmt_f3, pad3_digits _ hlt, e1, e2, e3, fmt_u_eq_toString]
  rfl

theorem record_written_of_not_loop (e : Ev) (h : e.is_loop = false) :
    e.record_written = none := by
  cases e <;> simp_all [Ev.is_loop, Ev.is_render, Ev.record_written]

theorem draw_dets_record_written (cls : Int → CStr) (ds : List object_detect_result) :
    (ds.flatMap (draw_det cls)).filterMap Ev.record_written = [] := by
  induction ds with
  | nil => rfl
  | cons d ds ih =>
    simp [List.flatMap_cons, List.filterMap_append, ih, draw_det, Ev.record_written]

theorem save_txt_stage_record_written (cls : Int → CStr) (d p : CStr) (o : Outcome) :
    (save_txt_stage cls d p o).filterMap Ev.record_written =
      ((txt_path d p).bind (fun tp =>
        if o.fopen_ok = true then some (tp, record_content cls p o.results) else none)).toList := by
  simp only [save_txt_stage]
  cases txt_path d p with
  | none => rfl
  | some tp =>
    cases hf : o.fopen_ok <;> simp [Ev.record_written]

theorem render_stage_record_written (cls : Int → CStr) (cfg : RunConfig) (p d : CStr)
    (o : Outcome) (hd : cfg.output_dir = some d) (hs : cfg.save_txt = true) :
    (render_stage cls cfg p o).filterMap Ev.record_written =
      ((txt_path d p).bind (fun tp =>
        if o.fopen_ok = true then some (tp, record_content cls p o.results) else none)).toList := by
  simp only [render_stage, hd, hs, List.filterMap_append, draw_dets_record_written,
    List.filterMap_cons, Ev.record_written, if_true, List.nil_append,
    save_txt_stage_record_written]

theorem filterMap_cons_toList {α β : Type} (f : α → Option β) (a : α) (l : List α) :
    (a :: l).filterMap f = (f a).toList ++ l.filterMap f := by
  rw [List.filterMap_cons]
  cases f a <;> rfl

theorem processLoop_record_written (cls : Int → CStr) (cfg : RunConfig) (image_folder d : CStr)
    (t : Nat) (hd : cfg.output_dir = some d) (hs : cfg.save_txt = true)
    (l : List (DirEnt × Outcome)) :
    ∀ st, (processLoop cls cfg image_folder t st l).2.filterMap Ev.record_written =
      (l.filter (is_inferred image_folder)).filterMap (fun eo =>
        (txt_path d (joined_path image_folder eo.1)).bind (fun tp =>
          if eo.2.fopen_ok = true then
            some (tp, record_content cls (joined_path image_folder eo.1) eo.2.results)
          else none)) := by
  induction l with
  | nil => intro st; simp [processLoop]
  | cons eo es ih =>
    intro st
    simp only [processLoop, List.filterMap_append, ih, processEntry_eq, List.filter_cons]
    by_cases hsel : is_selected image_folder eo.1 = true
    · by_cases hr : eo.2.read_ret = 0
      · by_cases hi : eo.2.infer_ret = 0
        · have hinf : is_inferred image_folder eo = true := by simp [is_inferred, hsel, hr, hi]
          simp only [hsel, hr, hi, hinf, if_true, ne_eq, not_true_eq_false, if_false,
            List.filterMap_append, render_stage_record_written cls cfg _ d eo.2 hd hs,
            filterMap_cons_toList]
          simp [Ev.record_written]
        · have hinf : is_inferred image_folder eo = false := by simp [is_inferred, hi]
          simp [hsel, hr, hi, hinf, Ev.record_written]
      · have hinf : is_inferred image_folder eo = false := by simp [is_inferred, hr]
        simp [hsel, hr, hinf, Ev.record_written]
    · have hinf : is_inferred image_folder eo = false := by simp [is_inferred, hsel]
      have hs2 : is_selected image_folder eo.1 = false := by simpa using hsel
      simp only [hs2, hinf, Bool.false_eq_true, if_false]
      split <;> simp [Ev.record_written]

theorem joined_path_no_newline (image_folder : CStr) (e : DirEnt)
    (hf : '\n' ∉ image_folder) (hn : '\n' ∉ e.d_name) : '\n' ∉ joined_path image_folder e := by
  simp only [joined_path, List.mem_append, List.mem_cons, not_or]
  exact ⟨hf, by decide, hn⟩


theorem fl64_half_million : fl64 500000 = 500000 :=
  fl64_exact _ 18 (500000 * 2 ^ 34) (by norm_num) (by norm_num) (by norm_num) (by norm_num)

theorem fl64_half_millisecond :
    fl64 (1 / 2000) = 1152921504606847 / 2305843009213693952 := by
  rw [fl64_eval (1 / 2000) (-11) 4611686018427388 (by norm_num) (by norm_num) (by norm_num)
    (by rw [abs_lt]; constructor <;> norm_num)]
  norm_num

theorem fl64_half_millisecond_fixed :
    fl64 (1152921504606847 / 2305843009213693952) =
      1152921504606847 / 2305843009213693952 :=
  fl64_exact _ (-11) 4611686018427388 (by norm_num) (by norm_num) (by norm_num)
    (by norm_num)

theorem inference_time_half_millisecond :
    inference_time ⟨0, 7, 0, 7, 500000, 0, [], true⟩ =
      1152921504606847 / 2305843009213693952 ∧
    fmt_f3 (1152921504606847 / 2305843009213693952) = "0.001".toList := by
  constructor
  · have e1 : ((7 - 7 : ℤ) : ℚ) = 0 := by norm_num
    have e2 : ((500000 - 0 : ℤ) : ℚ) = 500000 := by norm_num
    have e3 : (500000 : ℚ) / 1000000000 = 1 / 2000 := by norm_num
    have e4 : (0 : ℚ) + 1152921504606847 / 2305843009213693952 =
        1152921504606847 / 2305843009213693952 := by norm_num
    simp only [inference_time, e1, e2, fl64_zero, fl64_half_million, e3,
      fl64_half_millisecond, e4, fl64_half_millisecond_fixed]
  · have hfl : ⌊|(1152921504606847 / 2305843009213693952 : ℚ)| * 1000⌋ = 0 := by
      rw [Int.floor_eq_iff]
      norm_num [abs_of_nonneg]
    have hnat : Int.toNat 0 = 0 := rfl
    have h : round_half_even (|(1152921504606847 / 2305843009213693952 : ℚ)| * 1000) = 1 := by
      simp only [round_half_even, hfl, hnat]
      norm_num [abs_of_nonneg]
    have h2 : ¬ ((1152921504606847 / 2305843009213693952 : ℚ) < 0) := by norm_num
    simp only [fmt_f3, h, h2, if_false]
    decide

/-! ## The claims -/

/-- C1 (code at the failing input). The folder holds one regular file whose `read_image`
returns 0 and whose inference returns -1: the buffer is acquired and the run ends without
any release of it. -/
theorem inference_failure_skips_release :
    Ev.read_image "imgs/c.jpg".toList 0 ∈ (main plain_argv infer_fails_world).trace ∧
    Ev.inference_failed "imgs/c.jpg".toList ∈ (main plain_argv infer_fails_world).trace ∧
    (main plain_argv infer_fails_world).trace.filterMap Ev.released = [] :=
  ⟨by decide, by decide, by rfl⟩

/-- C2 (code at the failing input). When `init_yolo11_model` returns -1, `main` returns
right after `init_post_process` and the failed initialisation: neither
`deinit_post_process` nor `release_yolo11_model` is called. -/
theorem init_failure_skips_teardown :
    main plain_argv init_fails_world =
      { status := -1,
        trace := [Ev.init_post_process, Ev.init_yolo11_model "model.rknn".toList (-1),
          Ev.init_failed (-1)] } := by
  decide

/-- C3 (amended). When the directory was opened, the final report is exactly one line. With
`N` the number of entries of the listing that pass the filter and for which `read_image` and
`inference_yolo11_model` both returned 0, and `T` the total accumulated in `double`, in
listing order, over exactly those entries, of the latencies
`(end.tv_sec - start.tv_sec) + (end.tv_nsec - start.tv_nsec) / 1e9` computed in `double`
from the two clock readings: the line is the summary carrying `N` and the `double` quotient
`T / N` when `N > 0`, and "No valid images found in the folder." otherwise. The quotient is a
binary64 value (significand at most `2^53`) within relative error `2^-53` of the rational
`T / N` in the normal range, not the exact rational mean; `N` below `2^53` converts to
`double` unchanged. -/
theorem final_summary_counts_inferred (argv : List CStr) (w : World) (N : ℕ) (T : ℚ)
    (hopen : Ev.opendir (argv.getD 2 []) true ∈ (main argv w).trace)
    (hN : N = (w.pass2.filter (is_inferred (argv.getD 2 []))).length)
    (hT : T = (w.pass2.filter (is_inferred (argv.getD 2 []))).foldl
      (fun acc eo => fl64 (acc +
        fl64 (fl64 ((eo.2.end_sec - eo.2.start_sec : Int) : ℚ) +
          fl64 (fl64 ((eo.2.end_nsec - eo.2.start_nsec : Int) : ℚ) / 1000000000)))) 0) :
    (main argv w).trace.filter Ev.is_report =
      (if 0 < N then [Ev.summary N (fl64 (T / fl64 (N : ℚ)))] else [Ev.no_valid_images]) ∧
    (N < 2 ^ 53 → fl64 (N : ℚ) = N) ∧
    (∃ (m : ℕ) (p : ℤ), m ≤ 2 ^ 53 ∧ -1074 ≤ p ∧
      |fl64 (T / fl64 (N : ℚ))| = (m : ℚ) * (2 : ℚ) ^ p) ∧
    ((2 : ℚ) ^ (-1022 : ℤ) ≤ |T / fl64 (N : ℚ)| →
      |fl64 (T / fl64 (N : ℚ)) - T / fl64 (N : ℚ)| ≤ |T / fl64 (N : ℚ)| / 2 ^ 53) := by
  refine ⟨?_, fl64_natCast N, fl64_representable _, fl64_error_relative _⟩
  rw [main_report_of_opened argv w _ hopen, hN, hT]
  simp only [report, inference_time, gt_iff_lt]

/-- C3 (amended) at the sample run: of four entries one is inferred, between clock readings
100.25 s and 102.75 s; the report is the summary with count 1 and average 2.5 s. -/
theorem final_summary_counts_inferred_witness :
    (main sample_argv sample_world).trace.filter Ev.is_report = [Ev.summary 1 (5 / 2)] := by
  have hf : sample_world.pass2.filter (is_inferred (sample_argv.getD 2 [])) =
      [(⟨"a.jpg".toList, 0, true⟩,
        ⟨0, 100, 250000000, 102, 750000000, 0, [sample_det], true⟩)] := by rfl
  have e1 : ((102 - 100 : ℤ) : ℚ) = 2 := by norm_num
  have e2 : ((750000000 - 250000000 : ℤ) : ℚ) = 500000000 := by norm_num
  have e3 : (500000000 : ℚ) / 1000000000 = 1 / 2 := by norm_num
  have e4 : (2 : ℚ) + 1 / 2 = 5 / 2 := by norm_num
  have e5 : (0 : ℚ) + 5 / 2 = 5 / 2 := by norm_num
  have hT : (5 / 2 : ℚ) = (sample_world.pass2.filter (is_inferred (sample_argv.getD 2 []))).foldl
      (fun acc eo => fl64 (acc +
        fl64 (fl64 ((eo.2.end_sec - eo.2.start_sec : Int) : ℚ) +
          fl64 (fl64 ((eo.2.end_nsec - eo.2.start_nsec : Int) : ℚ) / 1000000000)))) 0 := by
    rw [hf, List.foldl_cons, List.foldl_nil]
    simp only [e1, e2, fl64_half_billion, e3, fl64_half, fl64_two, e4,
      fl64_five_halves, e5]
  have h := (final_summary_counts_inferred sample_argv sample_world 1 (5 / 2) (by decide)
    (by rfl) hT).1
  rw [h]
  simp only [Nat.cast_one, fl64_one, div_one, fl64_five_halves]
  rfl

/-- C3 (as stated) fails: three entries are inferred, between clock readings 1 s, 1 s and
2 s apart (each latency and their sum 4 are exact in `double`); the reported average is the
`double` nearest to 4/3, which is not the rational mean 4/3. -/
theorem average_not_exact_mean :
    (main plain_argv thirds_world).trace.filter Ev.is_report =
      [Ev.summary 3 (6004799503160661 / 4503599627370496)] ∧
    (6004799503160661 / 4503599627370496 : ℚ) ≠ (1 + 1 + 2) / 3 := by
  refine ⟨?_, by norm_num⟩
  have hf : thirds_world.pass2.filter (is_inferred (plain_argv.getD 2 [])) =
      thirds_world.pass2 := by rfl
  rw [main_report_of_opened plain_argv thirds_world "imgs".toList (by decide), hf]
  have e1 : ((11 - 10 : ℤ) : ℚ) = 1 := by norm_num
  have e2 : ((21 - 20 : ℤ) : ℚ) = 1 := by norm_num
  have e3 : ((32 - 30 : ℤ) : ℚ) = 2 := by norm_num
  have e0 : ((0 - 0 : ℤ) : ℚ) = 0 := by norm_num
  have a1 : (1 : ℚ) + 0 = 1 := by norm_num
  have a2 : (0 : ℚ) + 1 = 1 := by norm_num
  have a3 : (1 : ℚ) + 1 = 2 := by norm_num
  have a4 : (2 : ℚ) + 0 = 2 := by norm_num
  have a5 : (2 : ℚ) + 2 = 4 := by norm_num
  have a6 : ((3 : ℕ) : ℚ) = 3 := by norm_num
  simp only [thirds_world, report, inference_time, List.foldl, List.length_cons,
    List.length_nil, e0, e1, e2, e3, fl64_zero, zero_div, fl64_one, fl64_two, a1, a2, a3, a4,
    a5, fl64_four, a6, fl64_three, fl64_four_thirds]
  simp

/-- C4. The value returned by `main` is non-zero exactly when fewer than two positional
arguments are given, or a `mkdir` call for an `--output DIR` whose `access` check failed
returns non-zero, or `init_yolo11_model` returns non-zero. The value is -1 in the first two
cases (in the second, the run consists of option handling only: no model is initialised, no
image is read) and the code returned by `init_yolo11_model` in the third; every other run
returns 0, whatever `opendir`, `read_image`, inference and `release_yolo11_model` return. -/
theorem exit_status_nonzero_cases (argv : List CStr) (w : World) :
    ((main argv w).status ≠ 0 ↔
      argv.length < 3 ∨ (∃ i p r, Ev.mkdir i p r ∈ (main argv w).trace ∧ r ≠ 0) ∨
        (∃ m r, Ev.init_yolo11_model m r ∈ (main argv w).trace ∧ r ≠ 0)) ∧
    (argv.length < 3 → (main argv w).status = -1) ∧
    (∀ i p r, Ev.mkdir i p r ∈ (main argv w).trace →
      argv[i]? = some opt_output ∧ argv[i + 1]? = some p ∧ w.access_ret i ≠ 0 ∧
        r = w.mkdir_ret i) ∧
    (∀ i p r, Ev.mkdir i p r ∈ (main argv w).trace → r ≠ 0 →
      (main argv w).status = -1 ∧ ∀ e ∈ (main argv w).trace, e.is_option = true) ∧
    (∀ m r, Ev.init_yolo11_model m r ∈ (main argv w).trace → (main argv w).status = r) := by
  refine ⟨⟨?_, ?_⟩, ?_, ?_, ?_, ?_⟩
  · intro hs
    rcases main_cases argv w with ⟨hlt, _⟩ | ⟨tr, hpo, hm⟩ | ⟨tr, cfg, hpo, hi, hm⟩ |
      ⟨tr, cfg, hpo, _, _, hm⟩ | ⟨tr, cfg, hpo, _, _, hm⟩
    · exact Or.inl hlt
    · right; left
      have hn : (parseOpts w 3 (argv.drop 3) RunConfig.initial).2 = none := by rw [hpo]
      obtain ⟨i, p, r, hmem, hr⟩ := (parseOpts_none_iff w 3 _ _).mp hn
      rw [hpo] at hmem
      exact ⟨i, p, r, by rw [hm]; exact hmem, hr⟩
    · right; right
      exact ⟨argv.getD 1 [], w.init_ret, by rw [hm]; simp, hi⟩
    · rw [hm] at hs; exact absurd rfl hs
    · rw [hm] at hs; exact absurd rfl hs
  · rintro (hlt | ⟨i, p, r, hmem, hr⟩ | ⟨m, r, hmem, hr⟩)
    · simp [main, hlt]
    · rw [main_mkdir_failed argv w i p r hmem hr]
      simp
    · obtain ⟨h1, _, h3⟩ := main_mem_init argv w m r hmem
      rw [h3, ← h1]
      exact hr
  · intro hlt
    simp [main, hlt]
  · intro i p r hmem
    obtain ⟨h3, hmem2⟩ := main_mem_option argv w _ hmem rfl
    obtain ⟨hi, h1, h2, h4, h5⟩ := parseOpts_mkdir_mem w 3 (argv.drop 3) _ i p r hmem2
    rw [List.getElem?_drop] at h1 h2
    refine ⟨?_, ?_, h5, h4⟩
    · rw [← h1]; congr 1; omega
    · rw [← h2]; congr 1; omega
  · intro i p r hmem hr
    rw [main_mkdir_failed argv w i p r hmem hr]
    exact ⟨rfl, parseOpts_trace_option w 3 _ _⟩
  · intro m r hmem
    obtain ⟨h1, _, h3⟩ := main_mem_init argv w m r hmem
    rw [h3, h1]

/-- C4 at sample runs: no arguments, `mkdir` failing, `init_yolo11_model` failing, and three
runs that return 0. -/
theorem exit_status_nonzero_cases_samples :
    (main [] sample_world).status = -1 ∧
    (main sample_argv mkdir_fails_world).status = -1 ∧
    (main plain_argv init_fails_world).status = -1 ∧
    (main sample_argv { sample_world with dir_opens := false }).status = 0 ∧
    (main sample_argv { sample_world with release_ret := -1 }).status = 0 ∧
    (main sample_argv sample_world).status = 0 := by
  refine ⟨(exit_status_nonzero_cases [] sample_world).2.1 (by decide), ?_, ?_, ?_, ?_, ?_⟩
  · exact ((exit_status_nonzero_cases sample_argv mkdir_fails_world).2.2.2.1 3 "out".toList
      (-1) (by decide) (by decide)).1
  · exact (exit_status_nonzero_cases plain_argv init_fails_world).2.2.2.2 "model.rknn".toList
      (-1) (by decide)
  · decide
  · decide
  · decide

/-- C5 (code at the failing input). With `./imgs --output ./out --save-txt` and the entry
`img`, the annotated image goes to `./out/det_img` while the record file that is opened is
`.txt`: the last `.` of the whole path lies in the output directory. -/
theorem record_path_cut_in_output_dir :
    txt_path "./out".toList "./imgs/img".toList = some ".txt".toList ∧
    (main dotted_dir_argv plain_name_world).trace.filterMap Ev.read_path =
      ["./imgs/img".toList] ∧
    (main dotted_dir_argv plain_name_world).trace.filterMap Ev.written =
      ["./out/det_img".toList] ∧
    (main dotted_dir_argv plain_name_world).trace.filterMap Ev.record_path =
      [".txt".toList] :=
  ⟨by decide, by rfl, by rfl, by rfl⟩

/-- C6. Under `--output d --save-txt`, with the directory opened: the record files written
are, in listing order, those of the successfully inferred entries whose record file opens,
each at its derived path with the content for that entry's own path and detection list.
That content is the header `ID,PATH,TYPE,SCORE,XMIN,YMIN,XMAX,YMAX` followed by one row per
detection in list order, every line ended by a newline; row `i` (zero-based) is
`i,file_path,class name,score,left,top,right,bottom` of `results[i]` with the integers in
decimal and the score to 3 decimals: sign, integer part, `.` and three digits of the natural
number nearest to `|prop| * 1000` (ties to even). With no newline in the folder, the entry
names and the class names no line contains a newline, so the file has exactly `count + 1`
lines. For the detection (person, 0.87, box 10,20,110,220) of `a.jpg` the file is the header
and the row `0,<path>/a.jpg,person,0.870,10,20,110,220`. -/
theorem record_file_header_and_rows (argv : List CStr) (w : World) (cfg : RunConfig)
    (d : CStr)
    (hopen : Ev.opendir (argv.getD 2 []) true ∈ (main argv w).trace)
    (hcfg : (parseOpts w 3 (argv.drop 3) RunConfig.initial).2 = some cfg)
    (hd : cfg.output_dir = some d) (hs : cfg.save_txt = true)
    (hfolder : '\n' ∉ argv.getD 2 [])
    (hnames : ∀ eo ∈ w.pass2, '\n' ∉ eo.1.d_name)
    (hcls : ∀ c, '\n' ∉ w.coco_cls_to_name c) :
    (main argv w).trace.filterMap Ev.record_written =
      (w.pass2.filter (is_inferred (argv.getD 2 []))).filterMap (fun eo =>
        (txt_path d (joined_path (argv.getD 2 []) eo.1)).bind (fun tp =>
          if eo.2.fopen_ok = true then
            some (tp, record_content w.coco_cls_to_name (joined_path (argv.getD 2 []) eo.1)
              eo.2.results)
          else none)) ∧
    (∀ eo ∈ w.pass2.filter (is_inferred (argv.getD 2 [])),
      ∃ rows : List CStr,
        record_content w.coco_cls_to_name (joined_path (argv.getD 2 []) eo.1) eo.2.results =
          ("ID,PATH,TYPE,SCORE,XMIN,YMIN,XMAX,YMAX".toList :: rows).flatMap
            (fun l => l ++ ['\n']) ∧
        rows.length = eo.2.results.length ∧
        (∀ l ∈ rows, '\n' ∉ l) ∧
        (record_content w.coco_cls_to_name (joined_path (argv.getD 2 []) eo.1)
          eo.2.results).count '\n' = eo.2.results.length + 1 ∧
        ∀ (i : ℕ) (det : object_detect_result), eo.2.results[i]? = some det →
          ∃ m : ℕ, |(m : ℚ) - |det.prop| * 1000| ≤ 1 / 2 ∧
            (|(m : ℚ) - |det.prop| * 1000| = 1 / 2 → m % 2 = 0) ∧
            rows[i]? = some ((toString i).toList ++ ",".toList ++
              (argv.getD 2 [] ++ "/".toList ++ eo.1.d_name) ++ ",".toList ++
              w.coco_cls_to_name det.cls_id ++ ",".toList ++
              ((if det.prop < 0 then "-".toList else []) ++ (toString (m / 1000)).toList ++
                ['.', Nat.digitChar (m / 100 % 10), Nat.digitChar (m / 10 % 10),
                  Nat.digitChar (m % 10)]) ++ ",".toList ++
              (toString det.box.left).toList ++ ",".toList ++
              (toString det.box.top).toList ++ ",".toList ++
              (toString det.box.right).toList ++ ",".toList ++
              (toString det.box.bottom).toList)) ∧
    (w.coco_cls_to_name 0 = "person".toList → ∀ folder : CStr,
      record_content w.coco_cls_to_name (folder ++ "/a.jpg".toList) [sample_det] =
        "ID,PATH,TYPE,SCORE,XMIN,YMIN,XMAX,YMAX\n0,".toList ++ folder ++
          "/a.jpg,person,0.870,10,20,110,220\n".toList) := by
  refine ⟨?_, ?_, ?_⟩
  · obtain ⟨tr, cfg2, hpo, hm⟩ :=
      main_filterMap_of_opened Ev.record_written record_written_of_not_loop rfl argv w _ hopen
    rw [hpo] at hcfg
    cases hcfg
    rw [hm, processLoop_record_written _ cfg _ d _ hd hs]
  · intro eo heo
    have hmem : eo ∈ w.pass2 := (List.mem_filter.mp heo).1
    have hpath : '\n' ∉ joined_path (argv.getD 2 []) eo.1 :=
      joined_path_no_newline _ _ hfolder (hnames eo hmem)
    have hcontent : record_content w.coco_cls_to_name (joined_path (argv.getD 2 []) eo.1)
        eo.2.results =
        ("ID,PATH,TYPE,SCORE,XMIN,YMIN,XMAX,YMAX".toList ::
          eo.2.results.enum.map (fun x => record_row w.coco_cls_to_name
            (joined_path (argv.getD 2 []) eo.1) x.1 x.2)).flatMap (fun l => l ++ ['\n']) := by
      simp only [record_content, record_rows_eq, List.enum, List.flatMap_cons, record_header]
      simp
    have hrows : ∀ l ∈ eo.2.results.enum.map (fun x => record_row w.coco_cls_to_name
        (joined_path (argv.getD 2 []) eo.1) x.1 x.2), '\n' ∉ l := by
      intro l hl
      simp only [List.mem_map] at hl
      obtain ⟨⟨i, det⟩, _, rfl⟩ := hl
      exact record_row_no_newline _ _ i det hpath (hcls _)
    refine ⟨_, hcontent, by simp, hrows, ?_, ?_⟩
    · rw [hcontent, count_newline_lines]
      · simp
      · intro l hl
        simp only [List.mem_cons] at hl
        rcases hl with rfl | hl
        · decide
        · exact hrows l hl
    · intro i det hdet
      obtain ⟨m, hm1, hm2, hm3⟩ := fmt_f3_spec det.prop
      refine ⟨m, hm1, hm2, ?_⟩
      have hcast : toString ((i : ℕ) : ℤ) = toString i := rfl
      simp only [List.getElem?_map, List.getElem?_enum, hdet, Option.map_some', record_row,
        hm3, fmt_d_eq_toString, joined_path, hcast]
      simp
  · intro hperson folder
    have e0 : fmt_d ((0 : Nat) : Int) = ['0'] := by decide
    have e10 : fmt_d 10 = ['1', '0'] := by decide
    have e20 : fmt_d 20 = ['2', '0'] := by decide
    have e110 : fmt_d 110 = ['1', '1', '0'] := by decide
    have e220 : fmt_d 220 = ['2', '2', '0'] := by decide
    simp only [record_content, record_rows, record_row, sample_det, hperson, fmt_f3_sample,
      e0, e10, e20, e110, e220]
    simp [record_header]

/-- C6 at the sample run `demo model.rknn imgs --output out --save-txt`: one record file,
`out/det_a.txt`, holding the header and the row of the one detection of `imgs/a.jpg`. -/
theorem record_file_header_and_rows_witness :
    (main sample_argv sample_world).trace.filterMap Ev.record_written =
      [("out/det_a.txt".toList,
        "ID,PATH,TYPE,SCORE,XMIN,YMIN,XMAX,YMAX\n0,imgs/a.jpg,person,0.870,10,20,110,220\n".toList)] := by
  have h := record_file_header_and_rows sample_argv sample_world
    { RunConfig.initial with output_dir := some "out".toList, save_txt := true }
    "out".toList (by decide) (by rfl) rfl rfl (by decide) (by decide)
    (by intro c; show '\n' ∉ "person".toList; decide)
  have hf : sample_world.pass2.filter (is_inferred (sample_argv.getD 2 [])) =
      [(⟨"a.jpg".toList, 0, true⟩,
        ⟨0, 100, 250000000, 102, 750000000, 0, [sample_det], true⟩)] := by rfl
  have htp : txt_path "out".toList (joined_path (sample_argv.getD 2 []) ⟨"a.jpg".toList, 0, true⟩)
      = some "out/det_a.txt".toList := by decide
  have hc := h.2.2 rfl "imgs".toList
  have hj : joined_path (sample_argv.getD 2 []) ⟨"a.jpg".toList, 0, true⟩ =
      "imgs".toList ++ "/a.jpg".toList := by decide
  rw [h.1, hf]
  simp only [List.filterMap_cons, List.filterMap_nil, htp, Option.bind, if_true, hj]
  rw [hc]
  rfl

/-- C7 (amended). In a run without `--output` the render/write stage does nothing and no
detection line is printed either: no `draw_rectangle`, `draw_text`, `write_image`, record
file or detection line occurs. The detection lines belong to the output-directory block:
with an output directory configured and the directory opened, they are printed for the
successfully inferred entries, one line per detection, in listing and list order. -/
theorem detections_logged_only_with_output_dir (argv : List CStr) (w : World) :
    (opt_output ∉ argv.drop 3 →
      (∀ e ∈ (main argv w).trace, e.is_render = false) ∧
      (∀ n l t r b p, Ev.log_det n l t r b p ∉ (main argv w).trace)) ∧
    (∀ cfg d, Ev.opendir (argv.getD 2 []) true ∈ (main argv w).trace →
      (parseOpts w 3 (argv.drop 3) RunConfig.initial).2 = some cfg →
      cfg.output_dir = some d →
      (main argv w).trace.filterMap Ev.logged =
        (w.pass2.filter (is_inferred (argv.getD 2 []))).flatMap
          (fun eo => eo.2.results.map (log_line w.coco_cls_to_name))) := by
  constructor
  · intro hno
    have hrender : ∀ e ∈ (main argv w).trace, e.is_render = false := by
      intro e he
      cases hr : e.is_render
      · rfl
      · exfalso
        obtain ⟨tr, cfg, hpo, hmem⟩ :=
          main_mem_loop argv w e he (is_render_is_loop e hr) (by
            intro h; subst h; cases hr)
        obtain ⟨cfg2, hp2, hout⟩ := parseOpts_no_output w 3 (argv.drop 3) RunConfig.initial hno
        rw [hp2] at hpo
        cases hpo
        have := processLoop_no_render _ _ _ _ hout w.pass2 _ e hmem
        rw [hr] at this
        cases this
    refine ⟨hrender, ?_⟩
    intro n l t r b p hmem
    have := hrender _ hmem
    cases this
  · intro cfg d hopen hcfg hd
    obtain ⟨tr, cfg2, hpo, hm⟩ :=
      main_filterMap_of_opened Ev.logged logged_of_not_loop rfl argv w _ hopen
    rw [hpo] at hcfg
    cases hcfg
    rw [hm, processLoop_logged _ cfg _ d _ hd]

/-- C7 (amended) at the sample runs: nothing rendered or logged without `--output`, one
detection line with it. -/
theorem detections_logged_only_with_output_dir_witness :
    (∀ e ∈ (main plain_argv sample_world).trace, e.is_render = false) ∧
    (main sample_argv sample_world).trace.filterMap Ev.logged =
      [("person".toList, 10, 20, 110, 220, 87 / 100)] := by
  have h1 := (detections_logged_only_with_output_dir plain_argv sample_world).1 (by decide)
  have h2 := (detections_logged_only_with_output_dir sample_argv sample_world).2
    { RunConfig.initial with output_dir := some "out".toList, save_txt := true }
    "out".toList (by decide) (by rfl) rfl
  refine ⟨h1.1, ?_⟩
  rw [h2]
  rfl

/-- C7 (as stated) fails: the run `demo model.rknn imgs` has no `--output`, its entry
`a.jpg` is read and inferred successfully (the progress line shows 1) with one detection,
and no detection line is printed. -/
theorem no_output_detection_not_logged :
    opt_output ∉ plain_argv.drop 3 ∧
    (main plain_argv sample_world).trace.filterMap Ev.progress_count = [1] ∧
    (sample_world.pass2.filter (is_inferred (plain_argv.getD 2 []))).flatMap
        (fun eo => eo.2.results.map (log_line sample_world.coco_cls_to_name)) =
      [("person".toList, 10, 20, 110, 220, 87 / 100)] ∧
    (main plain_argv sample_world).trace.filterMap Ev.logged = [] :=
  ⟨by decide, by rfl, by rfl, by rfl⟩

/-- C8. For every image folder string, when an output directory `d` is configured and the
directory was opened, with every inferred entry name free of `/` and short enough for
`d + "/det_" + name` to fit the 1024-byte buffer: the basename taken by `strrchr` from
`image_folder + "/" + name` is the entry name itself, and the `write_image` calls of the run
are, in listing order, exactly one call with path `d + "/det_" + name` per entry for which
`read_image` and inference both succeeded. -/
theorem annotated_image_path_per_inferred_entry (argv : List CStr) (w : World)
    (cfg : RunConfig) (d : CStr)
    (hopen : Ev.opendir (argv.getD 2 []) true ∈ (main argv w).trace)
    (hcfg : (parseOpts w 3 (argv.drop 3) RunConfig.initial).2 = some cfg)
    (hd : cfg.output_dir = some d)
    (hname : ∀ eo ∈ w.pass2.filter (is_inferred (argv.getD 2 [])), '/' ∉ eo.1.d_name)
    (hlen : ∀ eo ∈ w.pass2.filter (is_inferred (argv.getD 2 [])),
      d.length + 5 + eo.1.d_name.length < 1024) :
    (∀ eo ∈ w.pass2.filter (is_inferred (argv.getD 2 [])),
      input_filename (joined_path (argv.getD 2 []) eo.1) = eo.1.d_name) ∧
    (main argv w).trace.filterMap Ev.written =
      (w.pass2.filter (is_inferred (argv.getD 2 []))).map
        (fun eo => d ++ "/det_".toList ++ eo.1.d_name) := by
  constructor
  · intro eo heo
    exact input_filename_joined _ eo.1 (hname eo heo)
  · obtain ⟨tr, cfg2, hpo, hm⟩ :=
      main_filterMap_of_opened Ev.written written_of_not_loop rfl argv w _ hopen
    rw [hpo] at hcfg
    cases hcfg
    rw [hm, processLoop_written _ cfg _ d _ hd]
    apply List.map_congr_left
    intro eo heo
    exact output_path_joined d _ eo.1 (hname eo heo) (hlen eo heo)

/-- C8 at the sample run: the one inferred entry `a.jpg` is written to `out/det_a.jpg`. -/
theorem annotated_image_path_per_inferred_entry_witness :
    (main sample_argv sample_world).trace.filterMap Ev.written = ["out/det_a.jpg".toList] := by
  have h := annotated_image_path_per_inferred_entry sample_argv sample_world
    { RunConfig.initial with output_dir := some "out".toList, save_txt := true }
    "out".toList (by decide) (by rfl) rfl (by decide) (by decide)
  rw [h.2]
  rfl

/-- C9. With the same entry sequence and `stat` results before and after `rewinddir`, the
Counting pass and the Processing pass apply the same filter (joined path shorter than 1024
bytes, `stat` succeeds, `S_ISREG`) entry by entry, `read_image` is called on exactly the
selected entries in listing order, and `total_files` equals the number of `read_image`
calls. -/
theorem passes_select_same_entries (argv : List CStr) (w : World)
    (hopen : Ev.opendir (argv.getD 2 []) true ∈ (main argv w).trace)
    (hstable : w.pass2.map Prod.fst = w.pass1) :
    (∀ n e, (countEntry (argv.getD 2 []) n e).1 =
        if is_selected (argv.getD 2 []) e = true then n + 1 else n) ∧
    (∀ cls cfg t st e o,
      (processEntry cls cfg (argv.getD 2 []) t st e o).2.filterMap Ev.read_path =
        if is_selected (argv.getD 2 []) e = true then [joined_path (argv.getD 2 []) e]
        else []) ∧
    (countLoop (argv.getD 2 []) 0 w.pass1).1 =
      (w.pass1.filter (is_selected (argv.getD 2 []))).length ∧
    (main argv w).trace.filterMap Ev.read_path =
      (w.pass1.filter (is_selected (argv.getD 2 []))).map (joined_path (argv.getD 2 [])) ∧
    (countLoop (argv.getD 2 []) 0 w.pass1).1 =
      ((main argv w).trace.filterMap Ev.read_path).length ∧
    (∀ c t pct, Ev.progress c t pct ∈ (main argv w).trace →
      t = ((main argv w).trace.filterMap Ev.read_path).length) := by
  obtain ⟨tr, cfg, hpo, hm⟩ :=
    main_filterMap_of_opened Ev.read_path read_path_of_not_loop rfl argv w _ hopen
  have hreads : (main argv w).trace.filterMap Ev.read_path =
      (w.pass1.filter (is_selected (argv.getD 2 []))).map (joined_path (argv.getD 2 [])) := by
    rw [hm, processLoop_read, hstable]
  have htotal : (countLoop (argv.getD 2 []) 0 w.pass1).1 =
      (w.pass1.filter (is_selected (argv.getD 2 []))).length := by
    rw [countLoop_fst]; simp
  refine ⟨?_, ?_, htotal, hreads, ?_, ?_⟩
  · intro n e
    rw [countEntry_eq]
    split <;> rfl
  · intro cls cfg t st e o
    exact processEntry_read cls cfg _ t st e o
  · rw [hreads, htotal, List.length_map]
  · intro c t pct hmem
    obtain ⟨tr2, cfg2, _, hmem2⟩ := main_mem_loop argv w _ hmem rfl (by simp)
    have := (processLoop_progress_mem _ cfg2 _ _ w.pass2 _ c t pct hmem2).1
    rw [this, hreads, htotal, List.length_map]

/-- C9 at the sample run: three regular files counted, the same three read in order. -/
theorem passes_select_same_entries_witness :
    (countLoop ("imgs".toList) 0 sample_world.pass1).1 = 3 ∧
    (main sample_argv sample_world).trace.filterMap Ev.read_path =
      ["imgs/a.jpg".toList, "imgs/b.png".toList, "imgs/c.jpg".toList] := by
  have h := passes_select_same_entries sample_argv sample_world (by decide) (by rfl)
  refine ⟨?_, ?_⟩
  · rw [show "imgs".toList = sample_argv.getD 2 [] from rfl, h.2.2.1]
    rfl
  · rw [h.2.2.2.1]
    rfl

/-- C10. With the same entry sequence and `stat` results before and after `rewinddir`, every
progress line shows counters with `1 ≤ image_count ≤ total_files`, so the divisor
`total_files` is not zero and the percentage `image_count / total_files * 100` lies in
`(0, 100]`; over the run the counters shown are `1, 2, 3, ...` in this order. -/
theorem progress_counter_within_total (argv : List CStr) (w : World)
    (hstable : w.pass2.map Prod.fst = w.pass1) :
    (∀ c t pct, Ev.progress c t pct ∈ (main argv w).trace →
      1 ≤ c ∧ c ≤ t ∧ t ≠ 0 ∧ pct = (c : ℚ) / (t : ℚ) * 100 ∧ 0 < pct ∧ pct ≤ 100) ∧
    (main argv w).trace.filterMap Ev.progress_count =
      List.range' 1 ((main argv w).trace.filterMap Ev.progress_count).length := by
  constructor
  · intro c t pct hmem
    obtain ⟨tr, cfg, _, hmem2⟩ := main_mem_loop argv w _ hmem rfl (by simp)
    obtain ⟨ht, hpct, h1, h2⟩ := processLoop_progress_mem _ cfg _ _ w.pass2 _ c t pct hmem2
    have hle := inferred_le_selected (argv.getD 2 []) w.pass2
    rw [hstable] at hle
    have htot := countLoop_fst (argv.getD 2 []) w.pass1 0
    simp only [Nat.zero_add] at h1 h2 htot
    have hct : c ≤ t := by rw [ht, htot]; omega
    have hc1 : 1 ≤ c := h1
    have ht0 : t ≠ 0 := by omega
    have hcq : (0 : ℚ) < (c : ℚ) := by exact_mod_cast hc1
    have htq : (0 : ℚ) < (t : ℚ) := by exact_mod_cast (Nat.pos_of_ne_zero ht0)
    have hctq : (c : ℚ) ≤ (t : ℚ) := by exact_mod_cast hct
    refine ⟨hc1, hct, ht0, ?_, ?_, ?_⟩
    · rw [hpct, ht]
    · rw [hpct, ← ht]
      positivity
    · rw [hpct, ← ht]
      have : (c : ℚ) / (t : ℚ) ≤ 1 := (div_le_one htq).mpr hctq
      linarith
  · rcases main_filterMap Ev.progress_count progress_count_of_not_loop rfl argv w with
      h | ⟨tr, cfg, _, h⟩
    · rw [h]; rfl
    · rw [h, processLoop_progress]
      simp

/-- C10 at the sample run: one progress line, showing 1 of a non-zero total with a
percentage in `(0, 100]`. -/
theorem progress_counter_within_total_witness :
    (main sample_argv sample_world).trace.filterMap Ev.progress_count = [1] ∧
    ∃ t pct, Ev.progress 1 t pct ∈ (main sample_argv sample_world).trace ∧
      1 ≤ t ∧ 0 < pct ∧ pct ≤ 100 := by
  have hlist : (main sample_argv sample_world).trace.filterMap Ev.progress_count = [1] := by
    rfl
  refine ⟨hlist, ?_⟩
  have hmem : 1 ∈ (main sample_argv sample_world).trace.filterMap Ev.progress_count := by
    rw [hlist]
    exact List.mem_singleton.mpr rfl
  obtain ⟨e, he, hc⟩ := List.mem_filterMap.mp hmem
  cases e with
  | progress c t pct =>
    have hb := (progress_counter_within_total sample_argv sample_world (by rfl)).1 c t pct he
    simp only [Ev.progress_count, Option.some.injEq] at hc
    subst hc
    exact ⟨t, pct, he, by omega, hb.2.2.2.2.1, hb.2.2.2.2.2⟩
  | _ => simp [Ev.progress_count] at hc

end Yolo11Batch
